import Mathlib

/-!
Verification development for `py_make_name.py`, a script that renames a
python library project: it copies the project directory to a sibling
directory named after the new library name, rewrites the configuration
file (`setup.cfg`), regenerates the sphinx configuration from a template,
discards the stale `.egg-info` directory, renames the top-level package
directories, and finally deletes the original directory; any error raised
while the new directory exists triggers a rollback that deletes it.

The script is embedded shallowly: the filesystem is a pair of lists
(directories, files with contents), paths are lists of components,
`ConfigParser` is an ordered section/key/value store whose on-disk
serialization is treated as opaque (the file stores the parsed value),
and fallible filesystem calls consult an explicit fault oracle
(`Faults`), which injects an `OSError` at a given call index, so that
runs that fail part-way (interrupted copies, failed writes or deletes)
are expressible.  Python-level behaviours that the script relies on are
modelled from the documented semantics of the standard library
(`re.sub`, `str.lower`, `ConfigParser.get/set`, `shutil`, `os.rename`).
-/

deriving instance DecidableEq for Except

namespace MakeScripts

/-! ## Case-insensitive string helpers

`str.lower` on the ASCII names this script manipulates is per-character
lowercasing; `x in y` is substring containment. -/
def lc (c : Char) : Char := c.toLower

def lowerStr (s : String) : String := ⟨s.data.map lc⟩

/-- `needle` is a prefix of `hay` (on exact characters). -/
def hasPref : List Char → List Char → Bool
  | [], _ => true
  | _ :: _, [] => false
  | p :: ps, c :: cs => p == c && hasPref ps cs

/-- `needle` occurs as a contiguous sublist of `hay`. -/
def hasSub (needle : List Char) : List Char → Bool
  | [] => needle.isEmpty
  | c :: cs => hasPref needle (c :: cs) || hasSub needle cs

/-- `needle.lower() in hay.lower()` (Python substring containment). -/
def substrCI (needle hay : String) : Bool :=
  hasSub ((lowerStr needle).data) ((lowerStr hay).data)

/-- Case-insensitive prefix stripping: if `pat` (case-insensitively)
matches a prefix of `s`, return the rest of `s`. -/
def stripPrefCI : List Char → List Char → Option (List Char)
  | [], s => some s
  | _ :: _, [] => none
  | p :: ps, c :: cs => if lc p = lc c then stripPrefCI ps cs else none

/-- Worker for `reSubCI`: replaces every leftmost, non-overlapping
case-insensitive occurrence of `p :: ps` by `repl`, scanning left to
right.  `fuel` is an upper bound on the number of characters still to be
scanned (each step consumes at least one character of the input, so fuel
equal to the input length suffices); it only makes the recursion
structural. -/
def replAllAux (p : Char) (ps repl : List Char) : Nat → List Char → List Char
  | _, [] => []
  | 0, s => s
  | fuel + 1, c :: cs =>
    if lc p = lc c then
      match stripPrefCI ps cs with
      | some rest => repl ++ replAllAux p ps repl fuel rest
      | none => c :: replAllAux p ps repl fuel cs
    else c :: replAllAux p ps repl fuel cs

/-- `re.sub(pat, repl, s, flags=re.IGNORECASE)` for a pattern free of
regex metacharacters (the script only ever passes directory names):
every case-insensitive occurrence of `pat` in `s` is replaced by `repl`.
The empty pattern (not reachable from the script's call sites, where the
pattern is a directory name) is modelled as the identity. -/
def reSubCI (pat repl s : String) : String :=
  match pat.data with
  | [] => s
  | p :: ps => ⟨replAllAux p ps repl.data s.data.length s.data⟩

/-- Replace only the first (leftmost) case-insensitive occurrence of
`pat` in `s` by `repl`, leaving the remainder unchanged. -/
def replFirstAux (p : Char) (ps repl : List Char) : List Char → List Char
  | [] => []
  | c :: cs =>
    if lc p = lc c then
      match stripPrefCI ps cs with
      | some rest => repl ++ rest
      | none => c :: replFirstAux p ps repl cs
    else c :: replFirstAux p ps repl cs

def replaceFirstCI (pat repl s : String) : String :=
  match pat.data with
  | [] => s
  | p :: ps => ⟨replFirstAux p ps repl.data s.data⟩

/-- Exact (case-sensitive) prefix stripping. -/
def stripPrefEq : List Char → List Char → Option (List Char)
  | [], s => some s
  | _ :: _, [] => none
  | p :: ps, c :: cs => if p == c then stripPrefEq ps cs else none

/-- Worker for `strReplace` (same fuel discipline as `replAllAux`). -/
def replAllEqAux (p : Char) (ps repl : List Char) : Nat → List Char → List Char
  | _, [] => []
  | 0, s => s
  | fuel + 1, c :: cs =>
    if p == c then
      match stripPrefEq ps cs with
      | some rest => repl ++ replAllEqAux p ps repl fuel rest
      | none => c :: replAllEqAux p ps repl fuel cs
    else c :: replAllEqAux p ps repl fuel cs

/-- Python `s.replace(pat, repl)`: every occurrence of `pat` in `s`
replaced by `repl` (the script only passes the nonempty template
token). -/
def strReplace (s pat repl : String) : String :=
  match pat.data with
  | [] => s
  | p :: ps => ⟨replAllEqAux p ps repl.data s.data.length s.data⟩

/-- Lines 149–154 of `rename_packages`: the new name computed for a
package directory `parent_name`, given the library's `old_name` and the
`target_name`.  The code runs
`re.sub(parent_name, old_name, target_name, flags=re.IGNORECASE)`
when `old_name.lower() in parent_name.lower()`, i.e. it substitutes
occurrences of `parent_name` inside `target_name` by `old_name`. -/
def newNameCode (old_name parent_name target_name : String) : String :=
  if substrCI old_name parent_name then
    reSubCI parent_name old_name target_name
  else target_name

/-- Modelled from the spec: `NameSubstitution.rename(old, pkg, new)` —
if `pkg` case-insensitively contains `old`, the result is `pkg` with the
first case-insensitive occurrence of `old` replaced by `new`, all
surrounding text preserved; otherwise the result is `new` exactly. -/
def renameSpec (oldLibName currentPkgName targetLibName : String) : String :=
  if substrCI oldLibName currentPkgName then
    replaceFirstCI oldLibName targetLibName currentPkgName
  else targetLibName

/-! ## The configuration store

`configparser.ConfigParser` with its default `optionxform` (option keys
are lowercased); section names are case-sensitive; `get` falls back to
the `DEFAULT` section for missing options; `set` writes an existing
section (or the defaults for `""`/`"DEFAULT"`) and raises
`NoSectionError` otherwise.  Dictionaries preserve insertion order;
updating an existing key keeps its position. -/
def lookupKV (l : List (String × String)) (k : String) : Option String :=
  (l.find? (fun e => e.1 == k)).map (·.2)

/-- Dictionary update: an existing key keeps its position, a new key is
appended (Python dicts preserve insertion order). -/
def setKV : List (String × String) → String → String → List (String × String)
  | [], k, v => [(k, v)]
  | e :: es, k, v => if e.1 == k then (k, v) :: es else e :: setKV es k v

structure Cfg where
  defaults : List (String × String) := []
  sections : List (String × List (String × String)) := []

deriving DecidableEq

inductive CfgErr
  | noSection (s : String)
  | noOption (s k : String)

deriving DecidableEq

/-- `ConfigParser.get(sec, key)`: `NoSectionError` when the section is
absent (and is not `DEFAULT`); otherwise the option is looked up in the
section, then in the defaults, and `NoOptionError` is raised when it is
found in neither. -/
def Cfg.get (c : Cfg) (sec key : String) : Except CfgErr String :=
  let k := lowerStr key
  match c.sections.find? (fun e => e.1 == sec) with
  | some e =>
    match lookupKV e.2 k with
    | some v => .ok v
    | none =>
      match lookupKV c.defaults k with
      | some v => .ok v
      | none => .error (.noOption sec key)
  | none =>
    if sec == "DEFAULT" then
      match lookupKV c.defaults k with
      | some v => .ok v
      | none => .error (.noOption sec key)
    else .error (.noSection sec)

/-- Update the named section's key/value list in place; `none` when the
section is absent. -/
def setSection : List (String × List (String × String)) → String → String → String →
    Option (List (String × List (String × String)))
  | [], _, _, _ => none
  | e :: es, sec, k, v =>
    if e.1 == sec then some ((e.1, setKV e.2 k v) :: es)
    else (setSection es sec k v).map (e :: ·)

/-- `ConfigParser.set(sec, key, val)`: writes the defaults for `""` or
`"DEFAULT"`, updates an existing section, and raises `NoSectionError`
when the section does not exist — it does NOT create it. -/
def Cfg.set (c : Cfg) (sec key val : String) : Except CfgErr Cfg :=
  let k := lowerStr key
  if sec == "" || sec == "DEFAULT" then
    .ok { c with defaults := setKV c.defaults k val }
  else
    match setSection c.sections sec k val with
    | some l => .ok { c with sections := l }
    | none => .error (.noSection sec)

/-- Worker for `Cfg.takeEntries`: keep the first `n` key/value pairs of
a section list (a section whose budget is exhausted is dropped). -/
def takeSections : Nat → List (String × List (String × String)) →
    List (String × List (String × String))
  | _, [] => []
  | 0, _ :: _ => []
  | n + 1, (s, kvs) :: rest =>
    (s, kvs.take (n + 1)) :: takeSections (n + 1 - kvs.length) rest

/-- The first `n` key/value entries of the config in serialization
order (defaults first, then the sections in order): the state left on
disk when a streaming `config.write` is interrupted after `n` entries. -/
def Cfg.takeEntries (c : Cfg) (n : Nat) : Cfg :=
  { defaults := c.defaults.take n,
    sections := takeSections (n - c.defaults.length) c.sections }

/-! ## The filesystem model

A path is its list of components below the root.  A filesystem is the
list of existing directories plus the list of files with their
contents.  A config file stores its parsed `Cfg` value: the script
treats the `setup.cfg` serialization as opaque (it only ever reads it
through `ConfigParser` and writes it through `config.write`), so
round-tripping through the textual INI format is not modelled. -/
abbrev Path := List String

inductive FileData
  | text (s : String)
  | config (c : Cfg)

deriving DecidableEq

structure FS where
  dirs : List Path
  files : List (Path × FileData)

deriving DecidableEq

def FS.fileAt (fs : FS) (p : Path) : Option FileData :=
  (fs.files.find? (fun e => e.1 == p)).map (·.2)

def FS.isDir (fs : FS) (p : Path) : Bool := fs.dirs.contains p

/-- `pathlib.Path.exists()`. -/
def FS.pexists (fs : FS) (p : Path) : Bool := fs.isDir p || (fs.fileAt p).isSome

/-- Transplant a path from under `src` to under `dst`. -/
def reroot (src dst p : Path) : Path := dst ++ p.drop src.length

/-- `shutil.copytree(src, dst)`: `dst` is created and the whole subtree
below `src` is copied below it (`src` itself is a prefix of itself, so
`dst` appears among the copied directories). -/
def FS.copyTree (fs : FS) (src dst : Path) : FS :=
  { dirs := fs.dirs ++ (fs.dirs.filter (fun d => src.isPrefixOf d)).map (reroot src dst),
    files := fs.files ++
      (fs.files.filter (fun e => src.isPrefixOf e.1)).map
        (fun e => (reroot src dst e.1, e.2)) }

/-- A `shutil.copytree` call interrupted by an I/O error: the
destination root directory has been created and some prefix of the
source files has been copied when the error is raised. -/
def FS.copyTreeUpTo (fs : FS) (src dst : Path) (k : Nat) : FS :=
  { dirs := fs.dirs ++ [dst],
    files := fs.files ++
      ((fs.files.filter (fun e => src.isPrefixOf e.1)).take k).map
        (fun e => (reroot src dst e.1, e.2)) }

/-- Delete the whole subtree rooted at `p` (no existence check). -/
def FS.removeTreeForce (fs : FS) (p : Path) : FS :=
  { dirs := fs.dirs.filter (fun d => !(p.isPrefixOf d)),
    files := fs.files.filter (fun e => !(p.isPrefixOf e.1)) }

/-- `os.rename(src, dst)` on a directory: the subtree below `src` moves
below `dst`. -/
def FS.moveTree (fs : FS) (src dst : Path) : FS :=
  { dirs := fs.dirs.map (fun d => if src.isPrefixOf d then reroot src dst d else d),
    files := fs.files.map
      (fun e => if src.isPrefixOf e.1 then (reroot src dst e.1, e.2) else e) }

/-- Worker for `FS.writeFile`: overwrite the entry for `p` in place, or
append a new one. -/
def updFiles : List (Path × FileData) → Path → FileData → List (Path × FileData)
  | [], p, d => [(p, d)]
  | e :: es, p, d => if e.1 == p then (p, d) :: es else e :: updFiles es p d

/-- Create or overwrite the file at `p` (an overwrite keeps the file's
position in the listing, as a dictionary update would). -/
def FS.writeFile (fs : FS) (p : Path) (d : FileData) : FS :=
  { fs with files := updFiles fs.files p d }

/-! ## Process state, errors, fault injection -/

/-- The error kinds the script can raise.  `osError` is the generic
injected I/O failure of a fallible filesystem call. -/
inductive Err
  | valueError (msg : String)
  | fileExists (p : Path)
  | fileNotFound (msg : String)
  | notADirectory (p : Path)
  | cfgErr (e : CfgErr)
  | osError

deriving DecidableEq

/-- Mutable process state: the filesystem, the working directory
(`os.chdir` is ambient state in the script), the output channels, and
the running index of fallible filesystem calls made so far. -/
structure World where
  fs : FS
  cwd : Path
  stdout : String := ""
  stderr : String := ""
  tick : Nat := 0

deriving DecidableEq

/-- Fault oracle: `fl t = some k` makes the `t`-th fallible filesystem
call raise `OSError`, after `k` units of partial work where the call
has any (interrupted copies copy `k` entries, interrupted config writes
leave `k` serialized entries); `none` lets the call succeed.  Fallible
calls are the mutating ones: `copytree`, the config/text writes,
`rmtree`, `rename`. -/
abbrev Faults := Nat → Option Nat

/-- Consult the fault oracle for the next fallible call. -/
def tickF (fl : Faults) (w : World) : Option Nat × World :=
  (fl w.tick, { w with tick := w.tick + 1 })

/-- `ScriptInfo` dataclass (lines 17–37): `name_original` is declared
but never assigned by the script. -/
structure ScriptInfo where
  name_target : Option String := none
  name_original : Option String := none
  path_original : Option Path := none
  path_target : Option Path := none
  new_created : Bool := false

deriving DecidableEq

/-- `str()` of an absolute path. -/
def pathStr (p : Path) : String := p.foldl (fun a c => a ++ "/" ++ c) ""

/-! ## The script's functions -/

/-- `load_target_name` (lines 50–65): the target name is `sys.argv[1]`;
a missing or empty value raises `ValueError`.  (The script stores the
name into `script_info` before the emptiness check; since the error
paths never read it back, the partial assignment is not modelled.) -/
def load_target_name (argv : List String) : Except Err String :=
  match argv.get? 1 with
  | none => .error (.valueError "new name must be passed with name=[name] param")
  | some n =>
    if n = "" then .error (.valueError "new name must be passed with name=[name] param")
    else .ok n

/-- `load_cfg` (lines 40–47): `ConfigParser.read` ignores a missing
file, yielding an empty parser.  A file that is not a stored config
value cannot be parsed in this model and also yields the empty parser
(the scripts under consideration keep `setup.cfg` as a config file). -/
def load_cfg (fs : FS) (config_path : Path) : Cfg :=
  match fs.fileAt config_path with
  | some (.config c) => c
  | _ => {}

/-- `make_new_directory` (lines 68–87): compute the original and target
paths, fail with `FileExistsError` when the target exists, copy the
tree, and only then set `new_created`.  The error carries the
`ScriptInfo` as the handler in `main` sees it. -/
def make_new_directory (fl : Faults) (si : ScriptInfo) (w : World) :
    Except (Err × ScriptInfo × World) (ScriptInfo × World) :=
  let orig := w.cwd
  let tgt := orig.dropLast ++ [si.name_target.getD "" ++ "-py"]
  let si' := { si with path_original := some orig, path_target := some tgt }
  if w.fs.pexists tgt then .error (.fileExists tgt, si', w)
  else
    match tickF fl w with
    | (some k, w') =>
      .error (.osError, si', { w' with fs := w'.fs.copyTreeUpTo orig tgt k })
    | (none, w') =>
      .ok ({ si' with new_created := true }, { w' with fs := w'.fs.copyTree orig tgt })

/-- `os.chdir` (line 212): requires the directory to exist. -/
def chdir (p : Path) (w : World) : Except (Err × World) World :=
  if w.fs.isDir p then .ok { w with cwd := p }
  else .error (.fileNotFound "chdir", w)

/-- Lines 105–106 of `edit_cfg`: `open(path, mode="w")` followed by
`config.write(f)`.  Opening with mode `"w"` truncates the file at once;
the serialized entries then stream out, so an I/O failure after `k`
entries leaves the truncated prefix on disk — not the previous
contents. -/
def cfgSave (fl : Faults) (config_path : Path) (c : Cfg) (w : World) :
    Except (Err × World) World :=
  match tickF fl w with
  | (some k, w') =>
    .error (.osError, { w' with fs := w'.fs.writeFile config_path (.config (c.takeEntries k)) })
  | (none, w') => .ok { w' with fs := w'.fs.writeFile config_path (.config c) }

/-- `edit_cfg` (lines 89–108): load the config from `./setup.cfg`
(resolved against the current working directory), read the old name,
set the four keys, write the file back, and return the old name. -/
def edit_cfg (fl : Faults) (si : ScriptInfo) (w : World) :
    Except (Err × World) (String × World) :=
  let target_name := si.name_target.getD ""
  let config_path := w.cwd ++ ["setup.cfg"]
  let config := load_cfg w.fs config_path
  match config.get "metadata" "name" with
  | .error e => .error (.cfgErr e, w)
  | .ok old_name =>
    match config.set "metadata" "name" target_name with
    | .error e => .error (.cfgErr e, w)
    | .ok c1 =>
      match c1.set "coverage:run" "source" target_name with
      | .error e => .error (.cfgErr e, w)
      | .ok c2 =>
        match c2.set "coverage:html" "title" ("coverage report for " ++ target_name) with
        | .error e => .error (.cfgErr e, w)
        | .ok c3 =>
          match c3.set "build_sphinx" "project" target_name with
          | .error e => .error (.cfgErr e, w)
          | .ok c4 =>
            match cfgSave fl config_path c4 w with
            | .error ew => .error ew
            | .ok w' => .ok (old_name, w')

/-- A text write (`Path.write_text`): `open` truncates, then the text
is written; an injected failure leaves the file truncated. -/
def writeTextF (fl : Faults) (p : Path) (s : String) (w : World) :
    Except (Err × World) World :=
  match tickF fl w with
  | (some _, w') => .error (.osError, { w' with fs := w'.fs.writeFile p (.text "") })
  | (none, w') => .ok { w' with fs := w'.fs.writeFile p (.text s) }

/-- `rewrite_sphinx_conf` (lines 111–126): read the template from
`./zdocs/source/conf-template`, substitute every occurrence of the name
token, write `./zdocs/source/conf.py`.  A missing template raises
`FileNotFoundError`; reading an existing file succeeds (the contents of
a stored config value are opaque and read as `""`). -/
def rewrite_sphinx_conf (fl : Faults) (target_name : String) (w : World) :
    Except (Err × World) World :=
  let template_path := w.cwd ++ ["zdocs", "source", "conf-template"]
  let conf_path := w.cwd ++ ["zdocs", "source", "conf.py"]
  match w.fs.fileAt template_path with
  | none => .error (.fileNotFound "conf-template", w)
  | some (.config _) =>
    writeTextF fl conf_path (strReplace "" "\x7blib-name-goes-here\x7d" target_name) w
  | some (.text template_text) =>
    writeTextF fl conf_path (strReplace template_text "\x7blib-name-goes-here\x7d" target_name) w

/-- Lines 186–194 of `alter_new`: remove `"<old_name>.egg-info"`;
absence is swallowed (`FileNotFoundError: pass`), `rmtree` of a file
raises `NotADirectoryError` (uncaught).  The `PermissionError` branch
(`chmod` then retry) is not modelled: the model has no permission bits,
so the forced retry is indistinguishable from the plain delete. -/
def remove_egg (fl : Faults) (old_name : String) (w : World) :
    Except (Err × World) World :=
  let path_egg := w.cwd ++ [old_name ++ ".egg-info"]
  if w.fs.isDir path_egg then
    match tickF fl w with
    | (some _, w') => .error (.osError, w')
    | (none, w') => .ok { w' with fs := w'.fs.removeTreeForce path_egg }
  else if (w.fs.fileAt path_egg).isSome then .error (.notADirectory path_egg, w)
  else .ok w

/-- The directory names matched by `iglob("./*/__init__.py")` in the
working directory: top-level directories whose name does not start with
a dot and which directly contain an `__init__.py` file.  The glob is
modelled as a snapshot taken when the loop starts (the script consumes
a lazy generator while renaming; on the zero-match and error cases that
the claims concern, the two coincide). -/
def startsDot (s : String) : Bool :=
  match s.data with
  | c :: _ => c == '.'
  | [] => false

def FS.topPkgDirs (fs : FS) (cwd : Path) : List String :=
  fs.dirs.filterMap fun d =>
    if d.length = cwd.length + 1 && cwd.isPrefixOf d then
      match d.getLast? with
      | some n =>
        if !startsDot n && (fs.fileAt (d ++ ["__init__.py"])).isSome then some n
        else none
      | none => none
    else none

/-- The diagnostic written to stderr on a rename collision (lines
162–166; the missing space in `namesmay` is in the source, which
concatenates adjacent f-strings). -/
def collisionMsg (target_name : String) : String :=
  "package '" ++ target_name ++ "' already exists, your current package names" ++
  "may not conform to illuscio's standards. All packages names should " ++
  "contain the root name of the library"

/-- The body of the `rename_packages` loop (lines 141–167) over the
matched directory names.  `zdevelop` (case-insensitive) is skipped
after being counted; a rename whose target exists writes the diagnostic
and re-raises `FileExistsError` (`os.rename` of a path onto itself is a
successful no-op on POSIX). -/
def renameLoop (fl : Faults) (old_name target_name : String) :
    List String → World → Except (Err × World) World
  | [], w => .ok w
  | n :: rest, w =>
    if lowerStr n == "zdevelop" then renameLoop fl old_name target_name rest w
    else
      let parent_path := w.cwd ++ [n]
      let new_name := newNameCode old_name n target_name
      let target_path := w.cwd ++ [new_name]
      if target_path == parent_path then
        match tickF fl w with
        | (some _, w') => .error (.osError, w')
        | (none, w') => renameLoop fl old_name target_name rest w'
      else if w.fs.pexists target_path then
        .error (.fileExists target_path,
          { w with stderr := w.stderr ++ collisionMsg target_name })
      else
        match tickF fl w with
        | (some _, w') => .error (.osError, w')
        | (none, w') =>
          renameLoop fl old_name target_name rest
            { w' with fs := w'.fs.moveTree parent_path target_path }

/-- `rename_packages` (lines 129–170): run the loop over the glob
matches; if the glob matched nothing at all (the loop variable `i` was
never bound — directories skipped as `zdevelop` still bind it), raise
`FileNotFoundError("no packages found in library")` after the loop. -/
def rename_packages (fl : Faults) (old_name target_name : String) (w : World) :
    Except (Err × World) World :=
  let found := w.fs.topPkgDirs w.cwd
  if found.isEmpty then .error (.fileNotFound "no packages found in library", w)
  else renameLoop fl old_name target_name found w

/-- `alter_new` (lines 173–197): edit the config, rewrite the sphinx
conf, discard the egg-info, rename the packages. -/
def alter_new (fl : Faults) (si : ScriptInfo) (w : World) :
    Except (Err × World) World :=
  match edit_cfg fl si w with
  | .error ew => .error ew
  | .ok (old_name, w1) =>
    match rewrite_sphinx_conf fl (si.name_target.getD "") w1 with
    | .error ew => .error ew
    | .ok w2 =>
      match remove_egg fl old_name w2 with
      | .error ew => .error ew
      | .ok w3 => rename_packages fl old_name (si.name_target.getD "") w3

/-- The `try` block of `main` (lines 205–218): read the target name,
make the new directory, change into it, alter it, and write the new
path to stdout. -/
def tryBody (argv : List String) (fl : Faults) (w : World) :
    Except (Err × ScriptInfo × World) (ScriptInfo × World) :=
  let si0 : ScriptInfo := {}
  match load_target_name argv with
  | .error e => .error (e, si0, w)
  | .ok name =>
    let si1 := { si0 with name_target := some name }
    match make_new_directory fl si1 w with
    | .error esw => .error esw
    | .ok (si2, w1) =>
      match chdir (si2.path_target.getD []) w1 with
      | .error (e, w') => .error (e, si2, w')
      | .ok w2 =>
        match alter_new fl si2 w2 with
        | .error (e, w') => .error (e, si2, w')
        | .ok w3 =>
          .ok (si2, { w3 with stdout := w3.stdout ++ pathStr (si2.path_target.getD []) })

/-- `main` (lines 200–229).  On any exception from the `try` block the
handler deletes the new directory if `new_created` is set and re-raises
(the rollback deletion itself is modelled as succeeding; a failure of
the cleanup call itself is outside the scope of the claims).  On
success the `else:` clause deletes the original tree — an error raised
there is NOT caught by the handler.  That final `shutil.rmtree` is
fallible: a natural `FileNotFoundError` when the path is gone, or an
injected `OSError` with no partial effect. -/
def main (argv : List String) (fl : Faults) (w : World) :
    Except (Err × ScriptInfo × World) (ScriptInfo × World) :=
  match tryBody argv fl w with
  | .error (e, si, w') =>
    if si.new_created then
      .error (e, si, { w' with fs := w'.fs.removeTreeForce (si.path_target.getD []) })
    else .error (e, si, w')
  | .ok (si, w') =>
    let orig := si.path_original.getD []
    if w'.fs.isDir orig then
      match tickF fl w' with
      | (some _, w'') => .error (.osError, si, w'')
      | (none, w'') => .ok (si, { w'' with fs := w''.fs.removeTreeForce orig })
    else .error (.fileNotFound "rmtree", si, w')

/-! ## Result projections -/
abbrev MainRes := Except (Err × ScriptInfo × World) (ScriptInfo × World)

abbrev StepRes := Except (Err × World) World

def exOk {ε α : Type} : Except ε α → Bool
  | .ok _ => true
  | .error _ => false

/-- The `new_created` flag as the error handler observes it (`none` for
a successful run). -/
def MainRes.flag? : MainRes → Option Bool
  | .error (_, si, _) => some si.new_created
  | .ok _ => none

def MainRes.err? : MainRes → Option Err
  | .error (e, _, _) => some e
  | .ok _ => none

/-- The final world of a run, successful or not. -/
def MainRes.world : MainRes → World
  | .error (_, _, w) => w
  | .ok (_, w) => w

def StepRes.world : StepRes → World
  | .error (_, w) => w
  | .ok w => w

/-! ## Concrete worlds for witnesses and counterexamples -/
def noFaults : Faults := fun _ => none

/-- A standard project config (`setup.cfg` of library `widgets`). -/
def projCfg : Cfg :=
  { sections := [("metadata", [("name", "widgets")]),
                 ("coverage:run", [("source", "widgets")]),
                 ("coverage:html", [("title", "coverage report for widgets")]),
                 ("build_sphinx", [("project", "widgets")])] }

/-- A standard project tree for library `widgets` rooted at
`/home/widgets-py`. -/
def projFS : FS :=
  { dirs := [[], ["home"], ["home", "widgets-py"], ["home", "widgets-py", "widgets"],
             ["home", "widgets-py", "zdocs"], ["home", "widgets-py", "zdocs", "source"],
             ["home", "widgets-py", "zdevelop"]],
    files := [(["home", "widgets-py", "setup.cfg"], .config projCfg),
              (["home", "widgets-py", "zdocs", "source", "conf-template"],
                .text "name = \x7blib-name-goes-here\x7d"),
              (["home", "widgets-py", "widgets", "__init__.py"], .text "")] }

def projW : World := { fs := projFS, cwd := ["home", "widgets-py"] }

/-- The fault oracle that interrupts the very first fallible call (the
`copytree`) after one entry has been copied. -/
def copyFault : Faults := fun n => if n == 0 then some 1 else none

/-! ## Path disjointness -/

/-- Neither path is an ancestor of the other: their subtrees are
disjoint. -/
def PathDisj (a b : Path) : Prop := ¬ a <+: b ∧ ¬ b <+: a

/-! ## Untouched subtrees -/

/-- The subtree rooted at `root` is identical in `fs₀` and `fs₁`:
directory membership and file contents agree on every path at or below
`root`. -/
def Untouched (fs₀ fs₁ : FS) (root : Path) : Prop :=
  (∀ p, root <+: p → (p ∈ fs₁.dirs ↔ p ∈ fs₀.dirs)) ∧
  (∀ p, root <+: p → fs₁.fileAt p = fs₀.fileAt p)

/-! ## Step discipline

All the steps that run after `os.chdir` into the new tree only touch
paths at or below the new working directory: they leave any disjoint
`root` subtree untouched, preserve the working directory and stdout,
and preserve directory-membership of every ancestor of the working
directory (in particular of the new tree's root itself). -/
def StepOk (w w' : World) (root : Path) : Prop :=
  Untouched w.fs w'.fs root ∧ w'.cwd = w.cwd ∧ w'.stdout = w.stdout ∧
  (∀ q, q <+: w.cwd → (q ∈ w'.fs.dirs ↔ q ∈ w.fs.dirs))

/-- A minimal standard project for library `widgets` rooted at
`/widgets-py`. -/
def miniFS : FS :=
  { dirs := [[], ["widgets-py"], ["widgets-py", "widgets"], ["widgets-py", "zdocs"],
             ["widgets-py", "zdocs", "source"]],
    files := [(["widgets-py", "setup.cfg"], .config projCfg),
              (["widgets-py", "zdocs", "source", "conf-template"], .text "name = nm"),
              (["widgets-py", "widgets", "__init__.py"], .text "")] }

def miniW : World := { fs := miniFS, cwd := ["widgets-py"] }

/-- The fault oracle that fails the fifth fallible filesystem call —
the commit-step `shutil.rmtree(path_original)` on the standard
single-package project. -/
def commitFault : Faults := fun n => if n == 4 then some 0 else none

/-- Did the step fail with `FileNotFoundError("no packages found in
library")`? -/
def isNoPkgErr : StepRes → Bool
  | .error (.fileNotFound m, _) => m == "no packages found in library"
  | _ => false

/-! ## Witness worlds -/

/-- The `ScriptInfo` after a successful `make_new_directory` on a
project rooted at `/widgets-py` renamed to `gadgets`. -/
def siGadgets : ScriptInfo :=
  { name_target := some "gadgets", name_original := none,
    path_original := some ["widgets-py"], path_target := some ["gadgets-py"],
    new_created := true }

/-- The standard project with the sphinx template missing: the run
fails in `rewrite_sphinx_conf` after the destination was created. -/
def miniNTFS : FS :=
  { dirs := [[], ["widgets-py"], ["widgets-py", "widgets"], ["widgets-py", "zdocs"],
             ["widgets-py", "zdocs", "source"]],
    files := [(["widgets-py", "setup.cfg"], .config projCfg),
              (["widgets-py", "widgets", "__init__.py"], .text "")] }

def miniNTW : World := { fs := miniNTFS, cwd := ["widgets-py"] }

/-- Final world of the template-missing run (rollback done). -/
def c2wFinal : World :=
  { fs := miniNTFS, cwd := ["gadgets-py"], stdout := "", stderr := "", tick := 2 }

/-- The world produced by the successful `try` block of the standard
mini project run (used for the commit-fault witness). -/
def c9w1 : World :=
  { fs := { dirs := [[], ["widgets-py"], ["widgets-py", "widgets"],
                     ["widgets-py", "zdocs"], ["widgets-py", "zdocs", "source"],
                     ["gadgets-py"], ["gadgets-py", "gadgets"], ["gadgets-py", "zdocs"],
                     ["gadgets-py", "zdocs", "source"]],
            files := [(["widgets-py", "setup.cfg"], .config projCfg),
                      (["widgets-py", "zdocs", "source", "conf-template"], .text "name = nm"),
                      (["widgets-py", "widgets", "__init__.py"], .text ""),
                      (["gadgets-py", "setup.cfg"], .config
                        { sections := [("metadata", [("name", "gadgets")]),
                                       ("coverage:run", [("source", "gadgets")]),
                                       ("coverage:html", [("title", "coverage report for gadgets")]),
                                       ("build_sphinx", [("project", "gadgets")])] }),
                      (["gadgets-py", "zdocs", "source", "conf-template"], .text "name = nm"),
                      (["gadgets-py", "gadgets", "__init__.py"], .text ""),
                      (["gadgets-py", "zdocs", "source", "conf.py"], .text "name = nm")] },
    cwd := ["gadgets-py"], stdout := "/gadgets-py", stderr := "", tick := 4 }

/-- A project with a config and template but not a single directory
containing `__init__.py`. -/
def noPkgFS : FS :=
  { dirs := [[], ["widgets-py"], ["widgets-py", "zdocs"], ["widgets-py", "zdocs", "source"]],
    files := [(["widgets-py", "setup.cfg"], .config projCfg),
              (["widgets-py", "zdocs", "source", "conf-template"], .text "name = nm")] }

def noPkgW : World := { fs := noPkgFS, cwd := ["widgets-py"] }

/-- Final world of the zero-package run (rollback done). -/
def c4wFinal : World :=
  { fs := noPkgFS, cwd := ["gadgets-py"], stdout := "", stderr := "", tick := 3 }

/-- The parsed config stored at a path, when the file is a config. -/
def cfgAt (fs : FS) (p : Path) : Option Cfg :=
  match fs.fileAt p with
  | some (.config c) => some c
  | _ => none

/-- Final world of the fault-free rename of the standard mini project. -/
def c3wFinal : World :=
  { fs := { dirs := [[], ["gadgets-py"], ["gadgets-py", "gadgets"],
                     ["gadgets-py", "zdocs"], ["gadgets-py", "zdocs", "source"]],
            files := [(["gadgets-py", "setup.cfg"], .config
                        { sections := [("metadata", [("name", "gadgets")]),
                                       ("coverage:run", [("source", "gadgets")]),
                                       ("coverage:html", [("title", "coverage report for gadgets")]),
                                       ("build_sphinx", [("project", "gadgets")])] }),
                      (["gadgets-py", "zdocs", "source", "conf-template"], .text "name = nm"),
                      (["gadgets-py", "gadgets", "__init__.py"], .text ""),
                      (["gadgets-py", "zdocs", "source", "conf.py"], .text "name = nm")] },
    cwd := ["gadgets-py"], stdout := "/gadgets-py", stderr := "", tick := 5 }

/-! ## Basic lemmas about the config store -/

theorem lookupKV_setKV_self (l : List (String × String)) (k v : String) :
    lookupKV (setKV l k v) k = some v := by
  induction l with
  | nil => simp [setKV, lookupKV]
  | cons e es ih =>
    by_cases h : e.1 == k
    · simp [setKV, h, lookupKV]
    · simp only [setKV, h, if_neg, Bool.false_eq_true, ite_false]
      simpa [lookupKV, List.find?, h] using ih

theorem setSection_spec (sec k v : String) :
    ∀ l : List (String × List (String × String)),
      (l.find? (fun e => e.1 == sec) = none → setSection l sec k v = none) ∧
      (∀ e0, l.find? (fun e => e.1 == sec) = some e0 →
        ∃ l', setSection l sec k v = some l' ∧
          l'.find? (fun e => e.1 == sec) = some (e0.1, setKV e0.2 k v)) := by
  intro l
  induction l with
  | nil => exact ⟨fun _ => rfl, fun e0 h => by simp [List.find?] at h⟩
  | cons e es ih =>
    cases he : (e.1 == sec) with
    | true =>
      refine ⟨fun h => ?_, fun e0 h => ?_⟩
      · rw [List.find?, he] at h; cases h
      · rw [List.find?, he] at h
        injection h with h; subst h
        exact ⟨(e.1, setKV e.2 k v) :: es, by simp [setSection, he], by simp [List.find?, he]⟩
    | false =>
      refine ⟨fun h => ?_, fun e0 h => ?_⟩
      · rw [List.find?, he] at h
        simp [setSection, he, (ih.1 h)]
      · rw [List.find?, he] at h
        obtain ⟨l0, hl0, hf⟩ := ih.2 e0 h
        exact ⟨e :: l0, by simp [setSection, he, hl0], by simp [List.find?, he, hf]⟩

/-! ## C1 -/

/-- C1: the claim states that when `currentPkgName` case-insensitively
contains `oldLibName`, the substitution returns `currentPkgName` with
that occurrence of `oldLibName` replaced by `targetLibName`.  The code
(line 151) instead calls `re.sub(parent_name, old_name, target_name)` —
pattern and input swapped — so on the spec's own worked example
(library `widgets`, sub-package `widgets_cli`, target `gadgets`) it
returns `gadgets` where the claim requires `gadgets_cli`. -/
theorem c1_substitution_divergence :
    newNameCode "widgets" "widgets_cli" "gadgets" = "gadgets" ∧
    renameSpec "widgets" "widgets_cli" "gadgets" = "gadgets_cli" ∧
    newNameCode "widgets" "widgets_cli" "gadgets" ≠
      renameSpec "widgets" "widgets_cli" "gadgets" := by
  refine ⟨by decide, by decide, by decide⟩

/-! ## C5 -/

/-- C5 counterexample: `ConfigParser.set` does not create an absent
section — on a config holding only a `metadata` section, setting
`coverage:run.source` raises `NoSectionError` instead of succeeding. -/
theorem c5_set_counterexample :
    Cfg.set { sections := [("metadata", [("name", "widgets")])] }
        "coverage:run" "source" "gadgets" =
      .error (.noSection "coverage:run") := by decide

/-- C5 (amended): `set(section, key, value)` overwrites or creates the
key when the section already exists, and fails with `NoSectionError`
when the section is absent (sections other than the `DEFAULT`
pseudo-section); consequently `edit_cfg` succeeds only on configs that
already contain all four touched sections. -/
theorem c5_set_amended (c : Cfg) (sec key val : String)
    (h1 : sec ≠ "") (h2 : sec ≠ "DEFAULT") :
    (exOk (c.set sec key val) = (c.sections.find? (fun e => e.1 == sec)).isSome) ∧
    (∀ c', c.set sec key val = .ok c' → c'.get sec key = .ok val) ∧
    (c.sections.find? (fun e => e.1 == sec) = none →
      c.set sec key val = .error (.noSection sec)) := by
  have hb1 : (sec == "") = false := by simpa using h1
  have hb2 : (sec == "DEFAULT") = false := by simpa using h2
  have hspec := setSection_spec sec (lowerStr key) val c.sections
  refine ⟨?_, ?_, ?_⟩
  · unfold Cfg.set
    simp only [hb1, hb2, Bool.or_self, Bool.false_or, if_false]
    cases hf : c.sections.find? (fun e => e.1 == sec) with
    | none => simp [hspec.1 hf, exOk]
    | some e0 =>
      obtain ⟨l', hl', _⟩ := hspec.2 e0 hf
      simp [hl', exOk]
  · intro c' hc'
    unfold Cfg.set at hc'
    simp only [hb1, hb2, Bool.or_self, Bool.false_or, if_false] at hc'
    cases hf : c.sections.find? (fun e => e.1 == sec) with
    | none =>
      rw [hspec.1 hf] at hc'; cases hc'
    | some e0 =>
      obtain ⟨l', hl', hfind⟩ := hspec.2 e0 hf
      rw [hl'] at hc'
      injection hc' with hc'
      subst hc'
      unfold Cfg.get
      simp [hfind, lookupKV_setKV_self]
  · intro hf
    unfold Cfg.set
    simp [hb1, hb2, hspec.1 hf]

/-- C5 witness: the amended statement evaluated on a concrete config
that has the section (`metadata`) — set succeeds and `get` reads the
new value back. -/
theorem c5_set_amended_witness :
    (exOk (Cfg.set projCfg "metadata" "name" "gadgets") =
      ((projCfg.sections.find? (fun e => e.1 == "metadata")).isSome)) ∧
    (∀ c', Cfg.set projCfg "metadata" "name" "gadgets" = .ok c' →
      c'.get "metadata" "name" = .ok "gadgets") :=
  ⟨(c5_set_amended projCfg "metadata" "name" "gadgets" (by decide) (by decide)).1,
   (c5_set_amended projCfg "metadata" "name" "gadgets" (by decide) (by decide)).2.1⟩

/-! ## C7 -/

/-- C7 counterexample: saving the config is not atomic.  `edit_cfg`
opens the file with mode `"w"` (truncation) and streams the config out;
a failure immediately after the open leaves an empty file — the on-disk
config is changed even though the save failed. -/
theorem c7_save_counterexample :
    exOk (cfgSave (fun _ => some 0) ["setup.cfg"] projCfg
        { fs := { dirs := [[]], files := [(["setup.cfg"], .config projCfg)] },
          cwd := [] }) = false ∧
    (StepRes.world (cfgSave (fun _ => some 0) ["setup.cfg"] projCfg
        { fs := { dirs := [[]], files := [(["setup.cfg"], .config projCfg)] },
          cwd := [] })).fs.fileAt ["setup.cfg"] =
      some (.config { }) ∧
    some (FileData.config { }) ≠ some (FileData.config projCfg) := by
  refine ⟨by decide, by decide, by decide⟩

/-- C7 (amended): the save is a truncating in-place write, not an
atomic replace: a fault-free save leaves exactly the new config on
disk, while a save interrupted after `k` serialized entries leaves the
truncated prefix `c.takeEntries k` — the previous contents are not
restored. -/
theorem c7_save_amended (fl : Faults) (p : Path) (c : Cfg) (w : World) :
    (fl w.tick = none →
      cfgSave fl p c w =
        .ok { w with fs := w.fs.writeFile p (.config c), tick := w.tick + 1 }) ∧
    (∀ k, fl w.tick = some k →
      cfgSave fl p c w =
        .error (.osError,
          { w with fs := w.fs.writeFile p (.config (c.takeEntries k)), tick := w.tick + 1 })) := by
  constructor
  · intro h
    unfold cfgSave tickF
    rw [h]
  · intro k h
    unfold cfgSave tickF
    rw [h]

/-- C7 witness: the amended statement at a concrete world, both the
successful and the interrupted save. -/
theorem c7_save_amended_witness :
    cfgSave noFaults ["setup.cfg"] projCfg
        { fs := { dirs := [[]], files := [] }, cwd := [] } =
      .ok { fs := { dirs := [[]], files := [(["setup.cfg"], .config projCfg)] },
            cwd := [], tick := 1 } :=
  ((c7_save_amended noFaults ["setup.cfg"] projCfg
      { fs := { dirs := [[]], files := [] }, cwd := [] }).1 rfl).trans (by decide)

/-! ## C4 counterexample -/

/-- C4 counterexample: a project whose only marker-bearing top-level
directory is `zdevelop` does NOT fail with `NoPackagesFound` — the loop
variable `i` is bound by `zip` before the `zdevelop` skip, so after the
loop `i` is not `None` and `rename_packages` returns normally (renaming
nothing). -/
theorem c4_zdevelop_counterexample :
    rename_packages noFaults "widgets" "gadgets"
        { fs := { dirs := [[], ["p"], ["p", "zdevelop"]],
                  files := [(["p", "zdevelop", "__init__.py"], .text "")] },
          cwd := ["p"] } =
      .ok { fs := { dirs := [[], ["p"], ["p", "zdevelop"]],
                    files := [(["p", "zdevelop", "__init__.py"], .text "")] },
            cwd := ["p"] } ∧
    FS.topPkgDirs
        { dirs := [[], ["p"], ["p", "zdevelop"]],
          files := [(["p", "zdevelop", "__init__.py"], .text "")] } ["p"] =
      ["zdevelop"] := by
  refine ⟨by decide, by decide⟩

/-! ## Early-failure runs of `main` -/

/-- When the computed destination already exists, `main` stops with
`FileExistsError` before any fallible filesystem call: the returned
world is the input world, unchanged. -/
theorem main_dest_exists_run (fl : Faults) (w : World) (a N : String) (hN : N ≠ "")
    (hex : w.fs.pexists (w.cwd.dropLast ++ [N ++ "-py"]) = true) :
    main [a, N] fl w = .error (.fileExists (w.cwd.dropLast ++ [N ++ "-py"]),
      { name_target := some N, name_original := none, path_original := some w.cwd,
        path_target := some (w.cwd.dropLast ++ [N ++ "-py"]), new_created := false }, w) := by
  unfold main tryBody load_target_name make_new_directory
  simp [hN, hex]

/-! ## C8 -/

/-- C8: if the destination path already exists, the run fails with
`FileExistsError` (`DestinationExists`) before any copy or deletion:
the returned state is exactly the initial one (original untouched,
nothing created) and `new_created` is false, so no rollback deletion is
performed. -/
theorem c8_destination_exists (fl : Faults) (w : World) (a N : String) (hN : N ≠ "")
    (hex : w.fs.pexists (w.cwd.dropLast ++ [N ++ "-py"]) = true) :
    main [a, N] fl w = .error (.fileExists (w.cwd.dropLast ++ [N ++ "-py"]),
      { name_target := some N, name_original := none, path_original := some w.cwd,
        path_target := some (w.cwd.dropLast ++ [N ++ "-py"]), new_created := false }, w) :=
  main_dest_exists_run fl w a N hN hex

/-- C8 witness: a concrete world in which `/home/gadgets-py` already
exists. -/
theorem c8_destination_exists_witness :
    main ["prog", "gadgets"] noFaults
        { fs := { dirs := [[], ["home"], ["home", "widgets-py"], ["home", "gadgets-py"]],
                  files := [] },
          cwd := ["home", "widgets-py"] } =
      .error (.fileExists ["home", "gadgets-py"],
        { name_target := some "gadgets", name_original := none,
          path_original := some ["home", "widgets-py"],
          path_target := some ["home", "gadgets-py"], new_created := false },
        { fs := { dirs := [[], ["home"], ["home", "widgets-py"], ["home", "gadgets-py"]],
                  files := [] },
          cwd := ["home", "widgets-py"] }) :=
  c8_destination_exists noFaults
    { fs := { dirs := [[], ["home"], ["home", "widgets-py"], ["home", "gadgets-py"]],
              files := [] },
      cwd := ["home", "widgets-py"] } "prog" "gadgets" (by decide) (by decide)

/-! ## C10 -/

/-- C10: renaming the library to its own current name — the project
root is already named `"<N>-py"` — computes a destination equal to the
original path, which exists, so the run fails with `FileExistsError`
before any copy; no special case allows a same-name rename. -/
theorem c10_rename_to_own_name (fl : Faults) (w : World) (a N : String) (p : Path)
    (hcwd : w.cwd = p ++ [N ++ "-py"])
    (hroot : w.cwd ∈ w.fs.dirs) (hN : N ≠ "") :
    main [a, N] fl w = .error (.fileExists w.cwd,
      { name_target := some N, name_original := none, path_original := some w.cwd,
        path_target := some w.cwd, new_created := false }, w) := by
  have hdest : w.cwd.dropLast ++ [N ++ "-py"] = w.cwd := by
    rw [hcwd]; simp
  have hex : w.fs.pexists (w.cwd.dropLast ++ [N ++ "-py"]) = true := by
    rw [hdest]
    unfold FS.pexists FS.isDir
    simp [hroot]
  have := main_dest_exists_run fl w a N hN hex
  rw [hdest] at this
  exact this

/-- C10 witness: project root `/home/gadgets-py`, target name
`gadgets`. -/
theorem c10_rename_to_own_name_witness :
    main ["prog", "gadgets"] noFaults
        { fs := { dirs := [[], ["home"], ["home", "gadgets-py"]], files := [] },
          cwd := ["home", "gadgets-py"] } =
      .error (.fileExists ["home", "gadgets-py"],
        { name_target := some "gadgets", name_original := none,
          path_original := some ["home", "gadgets-py"],
          path_target := some ["home", "gadgets-py"], new_created := false },
        { fs := { dirs := [[], ["home"], ["home", "gadgets-py"]], files := [] },
          cwd := ["home", "gadgets-py"] }) :=
  c10_rename_to_own_name noFaults
    { fs := { dirs := [[], ["home"], ["home", "gadgets-py"]], files := [] },
      cwd := ["home", "gadgets-py"] } "prog" "gadgets" ["home"] rfl
    (by decide) (by decide)

/-- C6 counterexample: when the recursive copy fails midway, the
destination tree IS present on disk (`/home/gadgets-py` exists) while
`new_created` is still false — the flag is set only after `copytree`
returns — so the partial copy is NOT cleaned up by rollback, contrary
to the claim that the flag is true exactly when the tree is present and
that partial copies are rolled back. -/
theorem c6_flag_counterexample :
    MainRes.flag? (main ["prog", "gadgets"] copyFault projW) = some false ∧
    ["home", "gadgets-py"] ∈
      (MainRes.world (main ["prog", "gadgets"] copyFault projW)).fs.dirs := by
  refine ⟨by decide, by decide⟩

/-- C6 (amended): `new_created` is set true only after the recursive
copy returns successfully.  A copy interrupted by an I/O fault leaves
the run failed with the flag still false, the partially-copied
destination tree present in the final state (the rollback handler skips
it), and the destination directory among the existing directories. -/
theorem c6_flag_amended (fl : Faults) (w : World) (a N : String) (k : Nat) (hN : N ≠ "")
    (hne : w.fs.pexists (w.cwd.dropLast ++ [N ++ "-py"]) = false)
    (hf : fl w.tick = some k) :
    main [a, N] fl w = .error (.osError,
      { name_target := some N, name_original := none, path_original := some w.cwd,
        path_target := some (w.cwd.dropLast ++ [N ++ "-py"]), new_created := false },
      { w with fs := w.fs.copyTreeUpTo w.cwd (w.cwd.dropLast ++ [N ++ "-py"]) k,
               tick := w.tick + 1 }) ∧
    (w.cwd.dropLast ++ [N ++ "-py"]) ∈
      (w.fs.copyTreeUpTo w.cwd (w.cwd.dropLast ++ [N ++ "-py"]) k).dirs := by
  constructor
  · unfold main tryBody load_target_name make_new_directory tickF
    simp [hN, hne, hf]
  · unfold FS.copyTreeUpTo
    simp

/-- C6 witness: the amended statement on the standard project with the
copy interrupted after one entry. -/
theorem c6_flag_amended_witness :
    main ["prog", "gadgets"] copyFault projW = .error (.osError,
      { name_target := some "gadgets", name_original := none,
        path_original := some ["home", "widgets-py"],
        path_target := some ["home", "gadgets-py"], new_created := false },
      { projW with fs := projW.fs.copyTreeUpTo ["home", "widgets-py"] ["home", "gadgets-py"] 1,
                   tick := 1 }) ∧
    ["home", "gadgets-py"] ∈
      (projW.fs.copyTreeUpTo ["home", "widgets-py"] ["home", "gadgets-py"] 1).dirs :=
  c6_flag_amended copyFault projW "prog" "gadgets" 1 (by decide) (by decide) (by decide)

/-! ## List-level lemmas for the filesystem -/
theorem isPrefixOf_false_of {p q : Path} (h : ¬ p <+: q) : p.isPrefixOf q = false := by
  cases hb : p.isPrefixOf q with
  | false => rfl
  | true => exact absurd (List.isPrefixOf_iff_prefix.mp hb) h

theorem isPrefixOf_true_of {p q : Path} (h : p <+: q) : p.isPrefixOf q = true :=
  List.isPrefixOf_iff_prefix.mpr h

/-- `find?` for a key is unchanged by a filter that keeps every entry
with that key. -/
theorem find?_filter_key {l : List (Path × FileData)} {pr : Path × FileData → Bool}
    {q : Path} (h : ∀ e : Path × FileData, e.1 = q → pr e = true) :
    (l.filter pr).find? (fun e => e.1 == q) = l.find? (fun e => e.1 == q) := by
  induction l with
  | nil => rfl
  | cons e es ih =>
    by_cases hq : e.1 = q
    · rw [List.filter_cons, h e hq]
      simp only [if_true]
      rw [List.find?, List.find?]
      simp [hq, ih]
    · have hb : (e.1 == q) = false := by simpa using hq
      rw [List.filter_cons]
      cases hpr : pr e with
      | true => simp only [if_true]; rw [List.find?, List.find?, hb]; simpa using ih
      | false => simp only [Bool.false_eq_true, if_false]; rw [List.find?, hb]; simpa using ih

/-- `find?` for a key is `none` after a filter that drops every entry
with that key. -/
theorem find?_filter_drop {l : List (Path × FileData)} {pr : Path × FileData → Bool}
    {q : Path} (h : ∀ e : Path × FileData, e.1 = q → pr e = false) :
    (l.filter pr).find? (fun e => e.1 == q) = none := by
  rw [List.find?_eq_none]
  intro e he
  rw [List.mem_filter] at he
  by_cases hq : e.1 = q
  · rw [h e hq] at he; cases he.2
  · simpa using hq

/-- `find?` for a key is unchanged by a map that fixes entries with
that key and never produces it from others. -/
theorem find?_map_of {l : List (Path × FileData)} {f : Path × FileData → Path × FileData}
    {q : Path} (h1 : ∀ e : Path × FileData, e.1 = q → f e = e)
    (h2 : ∀ e : Path × FileData, e.1 ≠ q → (f e).1 ≠ q) :
    (l.map f).find? (fun e => e.1 == q) = l.find? (fun e => e.1 == q) := by
  induction l with
  | nil => rfl
  | cons e es ih =>
    rw [List.map_cons, List.find?, List.find?]
    by_cases hq : e.1 = q
    · rw [h1 e hq]
      simp [hq]
    · have hb : (e.1 == q) = false := by simpa using hq
      have hb' : ((f e).1 == q) = false := by simpa using h2 e hq
      rw [hb, hb']
      exact ih

/-- `find?` for a key is unchanged by appending entries with other
keys. -/
theorem find?_append_other {l extra : List (Path × FileData)} {q : Path}
    (h : ∀ e ∈ extra, e.1 ≠ q) :
    (l ++ extra).find? (fun e => e.1 == q) = l.find? (fun e => e.1 == q) := by
  induction l with
  | nil =>
    rw [List.nil_append]
    have hnone : extra.find? (fun e => e.1 == q) = none :=
      List.find?_eq_none.mpr (fun e he => by simpa using h e he)
    rw [hnone]
    rfl
  | cons e es ih =>
    rw [List.cons_append, List.find?, List.find?]
    cases hb : (e.1 == q) with
    | true => rfl
    | false => exact ih

theorem find?_updFiles_self (l : List (Path × FileData)) (p : Path) (d : FileData) :
    (updFiles l p d).find? (fun e => e.1 == p) = some (p, d) := by
  induction l with
  | nil => simp [updFiles, List.find?]
  | cons e es ih =>
    by_cases hb : (e.1 == p) = true
    · simp [updFiles, hb, List.find?]
    · have hb' : (e.1 == p) = false := by simpa using hb
      rw [updFiles]
      simp only [hb', Bool.false_eq_true, if_false]
      rw [List.find?, hb']
      exact ih

theorem find?_updFiles_ne {l : List (Path × FileData)} {p q : Path} {d : FileData}
    (h : q ≠ p) :
    (updFiles l p d).find? (fun e => e.1 == q) = l.find? (fun e => e.1 == q) := by
  induction l with
  | nil =>
    have : (p == q) = false := by simpa using fun hh => h hh.symm
    simp [updFiles, List.find?, this]
  | cons e es ih =>
    by_cases hb : (e.1 == p) = true
    · have hep : e.1 = p := by simpa using hb
      have : (p == q) = false := by simpa using fun hh => h hh.symm
      rw [updFiles]
      simp only [hb, if_true]
      rw [List.find?, List.find?, this, hep, this]
    · have hb' : (e.1 == p) = false := by simpa using hb
      rw [updFiles]
      simp only [hb', Bool.false_eq_true, if_false]
      rw [List.find?, List.find?]
      cases hq : (e.1 == q) with
      | true => rfl
      | false => exact ih

/-- Sibling paths with distinct last components are disjoint. -/
theorem pathDisj_siblings {p : Path} {a b : String} (h : a ≠ b) :
    PathDisj (p ++ [a]) (p ++ [b]) := by
  constructor
  · intro hp
    have := List.IsPrefix.eq_of_length hp (by simp)
    exact h (by simpa using this)
  · intro hp
    have := List.IsPrefix.eq_of_length hp (by simp)
    exact h (by simpa using this.symm)

/-- Two ancestors of the same path are comparable, so a path below `b`
is never below `a` when `a` and `b` are disjoint. -/
theorem pathDisj_not_under {a b q : Path} (hd : PathDisj a b) (hq : b <+: q) :
    ¬ a <+: q := by
  intro ha
  rcases List.prefix_or_prefix_of_prefix ha hq with h | h
  · exact hd.1 h
  · exact hd.2 h

/-- Nothing below a strictly longer path lies on or above `q` when `q`
is an ancestor of `c`. -/
theorem ancestor_not_under {q c r : Path} (hq : q <+: c) (hr : c.length < r.length) :
    ¬ r <+: q := by
  intro h
  have h1 := List.IsPrefix.length_le h
  have h2 := List.IsPrefix.length_le hq
  omega

theorem untouched_refl (fs : FS) (root : Path) : Untouched fs fs root :=
  ⟨fun _ _ => Iff.rfl, fun _ _ => rfl⟩

theorem untouched_trans {fs₀ fs₁ fs₂ : FS} {root : Path}
    (h1 : Untouched fs₀ fs₁ root) (h2 : Untouched fs₁ fs₂ root) :
    Untouched fs₀ fs₂ root :=
  ⟨fun p hp => (h2.1 p hp).trans (h1.1 p hp),
   fun p hp => (h2.2 p hp).trans (h1.2 p hp)⟩

theorem untouched_writeFile {fs : FS} {p : Path} {d : FileData} {root : Path}
    (h : ¬ root <+: p) : Untouched fs (fs.writeFile p d) root := by
  refine ⟨fun q hq => Iff.rfl, fun q hq => ?_⟩
  have hqp : q ≠ p := fun he => h (he ▸ hq)
  unfold FS.fileAt FS.writeFile
  rw [find?_updFiles_ne hqp]

theorem untouched_removeForce {fs : FS} {r root : Path}
    (h : ∀ q, root <+: q → ¬ r <+: q) :
    Untouched fs (fs.removeTreeForce r) root := by
  constructor
  · intro q hq
    unfold FS.removeTreeForce
    simp only [List.mem_filter]
    constructor
    · exact fun hh => hh.1
    · intro hh
      refine ⟨hh, ?_⟩
      simp [isPrefixOf_false_of (h q hq)]
  · intro q hq
    unfold FS.fileAt FS.removeTreeForce
    rw [find?_filter_key]
    intro e he
    subst he
    simp [isPrefixOf_false_of (h e.1 hq)]

theorem untouched_moveTree {fs : FS} {src dst root : Path}
    (hs : ∀ q, root <+: q → ¬ src <+: q)
    (hd : ∀ q, root <+: q → ¬ dst <+: q) :
    Untouched fs (fs.moveTree src dst) root := by
  constructor
  · intro q hq
    unfold FS.moveTree
    simp only [List.mem_map]
    constructor
    · rintro ⟨d, hdm, hfd⟩
      by_cases hsd : src.isPrefixOf d
      · rw [if_pos hsd] at hfd
        exfalso
        refine hd q hq ?_
        rw [← hfd]
        exact List.prefix_append dst _
      · rw [if_neg hsd] at hfd
        exact hfd ▸ hdm
    · intro hm
      refine ⟨q, hm, ?_⟩
      rw [if_neg]
      simp [isPrefixOf_false_of (hs q hq)]
  · intro q hq
    unfold FS.fileAt FS.moveTree
    rw [find?_map_of]
    · intro e he
      rw [if_neg]
      simp [he, isPrefixOf_false_of (hs q hq)]
    · intro e he
      by_cases hse : src.isPrefixOf e.1
      · rw [if_pos hse]
        intro hcon
        exact hd q hq (hcon ▸ List.prefix_append dst _)
      · rw [if_neg hse]
        exact he

theorem untouched_copyTree {fs : FS} {src dst root : Path}
    (hd : ∀ q, root <+: q → ¬ dst <+: q) :
    Untouched fs (fs.copyTree src dst) root := by
  constructor
  · intro q hq
    unfold FS.copyTree
    simp only [List.mem_append, List.mem_map, List.mem_filter]
    constructor
    · rintro (hm | ⟨d, _, hfd⟩)
      · exact hm
      · exfalso
        exact hd q hq (hfd ▸ List.prefix_append dst _)
    · exact fun hm => Or.inl hm
  · intro q hq
    unfold FS.fileAt FS.copyTree
    rw [find?_append_other]
    rintro e he
    rw [List.mem_map] at he
    obtain ⟨e0, _, rfl⟩ := he
    intro hcon
    exact hd q hq (hcon ▸ List.prefix_append dst _)

theorem untouched_copyTreeUpTo {fs : FS} {src dst root : Path} {k : Nat}
    (hd : ∀ q, root <+: q → ¬ dst <+: q) :
    Untouched fs (fs.copyTreeUpTo src dst k) root := by
  constructor
  · intro q hq
    unfold FS.copyTreeUpTo
    simp only [List.mem_append, List.mem_singleton]
    constructor
    · rintro (hm | rfl)
      · exact hm
      · exact absurd (List.prefix_refl q) (hd q hq)
    · exact fun hm => Or.inl hm
  · intro q hq
    unfold FS.fileAt FS.copyTreeUpTo
    rw [find?_append_other]
    rintro e he
    rw [List.mem_map] at he
    obtain ⟨e0, _, rfl⟩ := he
    intro hcon
    exact hd q hq (hcon ▸ List.prefix_append dst _)

/-- After a forced subtree delete, nothing at or below `r` remains. -/
theorem removeForce_gone (fs : FS) (r : Path) :
    ∀ q, r <+: q → q ∉ (fs.removeTreeForce r).dirs ∧
      (fs.removeTreeForce r).fileAt q = none := by
  intro q hq
  constructor
  · unfold FS.removeTreeForce
    simp only [List.mem_filter]
    rintro ⟨_, hpred⟩
    rw [isPrefixOf_true_of hq] at hpred
    cases hpred
  · unfold FS.fileAt FS.removeTreeForce
    rw [find?_filter_drop]
    · rfl
    · intro e he
      subst he
      simp [isPrefixOf_true_of hq]

theorem mem_dirs_removeForce_keep {fs : FS} {r q : Path} (h : ¬ r <+: q) :
    q ∈ (fs.removeTreeForce r).dirs ↔ q ∈ fs.dirs := by
  unfold FS.removeTreeForce
  simp only [List.mem_filter]
  constructor
  · exact fun hh => hh.1
  · exact fun hh => ⟨hh, by simp [isPrefixOf_false_of h]⟩

theorem mem_dirs_moveTree_keep {fs : FS} {src dst q : Path}
    (hs : ¬ src <+: q) (hd : ¬ dst <+: q) :
    q ∈ (fs.moveTree src dst).dirs ↔ q ∈ fs.dirs := by
  unfold FS.moveTree
  simp only [List.mem_map]
  constructor
  · rintro ⟨d, hdm, hfd⟩
    by_cases hsd : src.isPrefixOf d
    · rw [if_pos hsd] at hfd
      exact absurd (hfd ▸ List.prefix_append dst _) hd
    · rw [if_neg hsd] at hfd
      exact hfd ▸ hdm
  · intro hm
    exact ⟨q, hm, by rw [if_neg]; simp [isPrefixOf_false_of hs]⟩

theorem stepOk_refl (w : World) (root : Path) : StepOk w w root :=
  ⟨untouched_refl _ _, rfl, rfl, fun _ _ => Iff.rfl⟩

theorem stepOk_trans {w w' w'' : World} {root : Path}
    (h1 : StepOk w w' root) (h2 : StepOk w' w'' root) : StepOk w w'' root := by
  obtain ⟨u1, c1, s1, a1⟩ := h1
  obtain ⟨u2, c2, s2, a2⟩ := h2
  refine ⟨untouched_trans u1 u2, c2.trans c1, s2.trans s1, fun q hq => ?_⟩
  rw [c1] at a2
  exact (a2 q hq).trans (a1 q hq)

/-- A world differing only in bookkeeping fields (tick, stderr). -/
theorem stepOk_fs_eq {w w' : World} {root : Path}
    (hfs : w'.fs = w.fs) (hc : w'.cwd = w.cwd) (hs : w'.stdout = w.stdout) :
    StepOk w w' root := by
  refine ⟨?_, hc, hs, ?_⟩
  · rw [hfs]; exact untouched_refl _ _
  · rw [hfs]; exact fun _ _ => Iff.rfl

/-- A write at or below the working directory. -/
theorem stepOk_writeFile {w : World} {root p : Path} {d : FileData}
    (h : ¬ root <+: p) :
    StepOk w { w with fs := w.fs.writeFile p d } root :=
  ⟨untouched_writeFile h, rfl, rfl, fun _ _ => Iff.rfl⟩

theorem cfgSave_stepok (fl : Faults) (cp : Path) (c : Cfg) (w : World) (root : Path)
    (hcp : ¬ root <+: cp) :
    StepOk w (StepRes.world (cfgSave fl cp c w)) root := by
  unfold cfgSave tickF
  cases fl w.tick with
  | none => exact stepOk_writeFile hcp
  | some k => exact stepOk_writeFile hcp

theorem writeTextF_stepok (fl : Faults) (p : Path) (s : String) (w : World) (root : Path)
    (hp : ¬ root <+: p) :
    StepOk w (StepRes.world (writeTextF fl p s w)) root := by
  unfold writeTextF tickF
  cases fl w.tick with
  | none => exact stepOk_writeFile hp
  | some k => exact stepOk_writeFile hp

theorem edit_cfg_stepok (fl : Faults) (si : ScriptInfo) (w : World) (root : Path)
    (hd : ∀ q, root <+: q → ¬ w.cwd <+: q) :
    StepOk w (StepRes.world ((edit_cfg fl si w).map Prod.snd)) root := by
  have hcp : ¬ root <+: (w.cwd ++ ["setup.cfg"]) :=
    fun h => hd _ h (List.prefix_append _ _)
  unfold edit_cfg
  dsimp only
  split
  · exact stepOk_refl w root
  · split
    · exact stepOk_refl w root
    · split
      · exact stepOk_refl w root
      · split
        · exact stepOk_refl w root
        · split
          · exact stepOk_refl w root
          · rename_i c4 hset4
            cases hsave : cfgSave fl (w.cwd ++ ["setup.cfg"]) c4 w with
            | error ew =>
              have hst := cfgSave_stepok fl (w.cwd ++ ["setup.cfg"]) c4 w root hcp
              rw [hsave] at hst
              exact hst
            | ok w2 =>
              have hst := cfgSave_stepok fl (w.cwd ++ ["setup.cfg"]) c4 w root hcp
              rw [hsave] at hst
              exact hst

theorem rewrite_sphinx_stepok (fl : Faults) (tn : String) (w : World) (root : Path)
    (hd : ∀ q, root <+: q → ¬ w.cwd <+: q) :
    StepOk w (StepRes.world (rewrite_sphinx_conf fl tn w)) root := by
  have hcf : ¬ root <+: (w.cwd ++ ["zdocs", "source", "conf.py"]) :=
    fun h => hd _ h (List.prefix_append _ _)
  unfold rewrite_sphinx_conf
  dsimp only
  split
  · exact stepOk_refl w root
  · exact writeTextF_stepok fl _ _ w root hcf
  · exact writeTextF_stepok fl _ _ w root hcf

theorem remove_egg_stepok (fl : Faults) (old_name : String) (w : World) (root : Path)
    (hd : ∀ q, root <+: q → ¬ w.cwd <+: q) :
    StepOk w (StepRes.world (remove_egg fl old_name w)) root := by
  have hegg : ∀ q, root <+: q → ¬ (w.cwd ++ [old_name ++ ".egg-info"]) <+: q :=
    fun q hq hcon => hd q hq ((List.prefix_append _ _).trans hcon)
  unfold remove_egg
  dsimp only
  by_cases hdir : w.fs.isDir (w.cwd ++ [old_name ++ ".egg-info"]) = true
  · rw [if_pos hdir]
    unfold tickF
    cases fl w.tick with
    | some k => exact stepOk_fs_eq rfl rfl rfl
    | none =>
      refine ⟨untouched_removeForce hegg, rfl, rfl, fun q hq => ?_⟩
      exact mem_dirs_removeForce_keep
        (ancestor_not_under hq (by simp))
  · rw [if_neg hdir]
    split
    · exact stepOk_refl w root
    · exact stepOk_refl w root

theorem renameLoop_stepok (fl : Faults) (o t : String) (root : Path) :
    ∀ (ms : List String) (w : World),
      (∀ q, root <+: q → ¬ w.cwd <+: q) →
      StepOk w (StepRes.world (renameLoop fl o t ms w)) root := by
  intro ms
  induction ms with
  | nil => exact fun w _ => stepOk_refl w root
  | cons n rest ih =>
    intro w hd
    rw [renameLoop]
    dsimp only
    by_cases hz : (lowerStr n == "zdevelop") = true
    · rw [if_pos hz]
      exact ih w hd
    · rw [if_neg hz]
      by_cases hself : ((w.cwd ++ [newNameCode o n t] : Path) == w.cwd ++ [n]) = true
      · rw [if_pos hself]
        unfold tickF
        cases hf : fl w.tick with
        | some k => exact stepOk_fs_eq rfl rfl rfl
        | none => exact stepOk_trans (stepOk_fs_eq rfl rfl rfl) (ih _ hd)
      · rw [if_neg hself]
        by_cases hex : w.fs.pexists (w.cwd ++ [newNameCode o n t]) = true
        · rw [if_pos hex]
          exact stepOk_fs_eq rfl rfl rfl
        · rw [if_neg hex]
          unfold tickF
          cases hf : fl w.tick with
          | some k => exact stepOk_fs_eq rfl rfl rfl
          | none =>
            have hsrc : ∀ q, root <+: q → ¬ (w.cwd ++ [n]) <+: q :=
              fun q hq hcon => hd q hq ((List.prefix_append _ _).trans hcon)
            have hdst : ∀ q, root <+: q → ¬ (w.cwd ++ [newNameCode o n t]) <+: q :=
              fun q hq hcon => hd q hq ((List.prefix_append _ _).trans hcon)
            have hmv : StepOk w
                { w with fs := w.fs.moveTree (w.cwd ++ [n]) (w.cwd ++ [newNameCode o n t]),
                         tick := w.tick + 1 } root := by
              refine ⟨untouched_moveTree hsrc hdst, rfl, rfl, fun q hq => ?_⟩
              exact mem_dirs_moveTree_keep
                (ancestor_not_under hq (by simp)) (ancestor_not_under hq (by simp))
            exact stepOk_trans hmv (ih _ hd)

theorem rename_packages_stepok (fl : Faults) (o t : String) (w : World) (root : Path)
    (hd : ∀ q, root <+: q → ¬ w.cwd <+: q) :
    StepOk w (StepRes.world (rename_packages fl o t w)) root := by
  unfold rename_packages
  dsimp only
  split
  · exact stepOk_refl w root
  · exact renameLoop_stepok fl o t root _ w hd

theorem alter_new_stepok (fl : Faults) (si : ScriptInfo) (w : World) (root : Path)
    (hd : ∀ q, root <+: q → ¬ w.cwd <+: q) :
    StepOk w (StepRes.world (alter_new fl si w)) root := by
  unfold alter_new
  cases hedit : edit_cfg fl si w with
  | error ew =>
    have := edit_cfg_stepok fl si w root hd
    rw [hedit] at this
    exact this
  | ok sw =>
    cases sw with
    | mk old_name w1 =>
      dsimp only
      have h1 : StepOk w w1 root := by
        have := edit_cfg_stepok fl si w root hd
        rwa [hedit] at this
      have hd1 : ∀ q, root <+: q → ¬ w1.cwd <+: q := by rw [h1.2.1]; exact hd
      cases hs : rewrite_sphinx_conf fl (si.name_target.getD "") w1 with
      | error ew =>
        have h2 := rewrite_sphinx_stepok fl (si.name_target.getD "") w1 root hd1
        rw [hs] at h2
        exact stepOk_trans h1 h2
      | ok w2 =>
        dsimp only
        have h2 : StepOk w1 w2 root := by
          have := rewrite_sphinx_stepok fl (si.name_target.getD "") w1 root hd1
          rwa [hs] at this
        have hd2 : ∀ q, root <+: q → ¬ w2.cwd <+: q := by rw [h2.2.1]; exact hd1
        cases he : remove_egg fl old_name w2 with
        | error ew =>
          have h3 := remove_egg_stepok fl old_name w2 root hd2
          rw [he] at h3
          exact stepOk_trans h1 (stepOk_trans h2 h3)
        | ok w3 =>
          dsimp only
          have h3 : StepOk w2 w3 root := by
            have := remove_egg_stepok fl old_name w2 root hd2
            rwa [he] at this
          have hd3 : ∀ q, root <+: q → ¬ w3.cwd <+: q := by rw [h3.2.1]; exact hd2
          have h4 := rename_packages_stepok fl old_name (si.name_target.getD "") w3 root hd3
          exact stepOk_trans h1 (stepOk_trans h2 (stepOk_trans h3 h4))

/-! ## Inversion lemmas for `tryBody` -/
theorem PathDisj.symm {a b : Path} (h : PathDisj a b) : PathDisj b a := ⟨h.2, h.1⟩

theorem load_target_name_ok {argv : List String} {N : String}
    (h : load_target_name argv = .ok N) : argv.get? 1 = some N ∧ N ≠ "" := by
  unfold load_target_name at h
  cases hg : argv.get? 1 with
  | none => rw [hg] at h; cases h
  | some n =>
    rw [hg] at h
    dsimp only at h
    by_cases hn : n = ""
    · rw [if_pos hn] at h; cases h
    · rw [if_neg hn] at h
      injection h with h
      subst h
      exact ⟨rfl, hn⟩

theorem load_target_name_err {argv : List String} {e : Err}
    (h : load_target_name argv = .error e) :
    e = .valueError "new name must be passed with name=[name] param" := by
  unfold load_target_name at h
  cases hg : argv.get? 1 with
  | none => rw [hg] at h; injection h with h; exact h.symm
  | some n =>
    rw [hg] at h
    dsimp only at h
    by_cases hn : n = ""
    · rw [if_pos hn] at h; injection h with h; exact h.symm
    · rw [if_neg hn] at h; cases h

/-- The copied destination root is among the directories. -/
theorem copyTree_dst_mem {fs : FS} {src dst : Path} (h : src ∈ fs.dirs) :
    dst ∈ (fs.copyTree src dst).dirs := by
  unfold FS.copyTree
  dsimp only
  rw [List.mem_append]
  right
  rw [List.mem_map]
  refine ⟨src, ?_, ?_⟩
  · rw [List.mem_filter]
    exact ⟨h, isPrefixOf_true_of (List.prefix_refl src)⟩
  · unfold reroot
    simp

/-- When the destination does not exist but the project root does, the
destination is a sibling subtree disjoint from the original root. -/
theorem dest_disjoint {w : World} {N : String}
    (hne : w.cwd ≠ []) (hroot : w.cwd ∈ w.fs.dirs)
    (hnex : w.fs.pexists (w.cwd.dropLast ++ [N ++ "-py"]) = false) :
    PathDisj w.cwd (w.cwd.dropLast ++ [N ++ "-py"]) := by
  have hnd : w.cwd.dropLast ++ [N ++ "-py"] ≠ w.cwd := by
    intro he
    rw [he] at hnex
    unfold FS.pexists FS.isDir at hnex
    simp [hroot] at hnex
  have hc : w.cwd.dropLast ++ [w.cwd.getLast hne] = w.cwd :=
    List.dropLast_append_getLast hne
  have hgl : w.cwd.getLast hne ≠ N ++ "-py" := by
    intro he
    exact hnd (by rw [← he]; exact hc)
  have hd := pathDisj_siblings (p := w.cwd.dropLast) hgl
  rw [hc] at hd
  exact hd

theorem tryBody_err_spec (argv : List String) (fl : Faults) (w : World)
    (hne : w.cwd ≠ []) (hroot : w.cwd ∈ w.fs.dirs) :
    ∀ e si w', tryBody argv fl w = .error (e, si, w') →
      Untouched w.fs w'.fs w.cwd ∧
      (si.new_created = true →
        si.path_target = some (w.cwd.dropLast ++ [(argv.get? 1).getD "" ++ "-py"]) ∧
        PathDisj w.cwd (w.cwd.dropLast ++ [(argv.get? 1).getD "" ++ "-py"])) ∧
      (si.new_created = false → ∀ m, e ≠ .fileNotFound m) := by
  intro e si w' h
  unfold tryBody at h
  cases hload : load_target_name argv with
  | error e0 =>
    rw [hload] at h
    dsimp only at h
    injection h with h1
    injection h1 with h1a h1b
    injection h1b with h1c h1d
    subst h1a; subst h1c; subst h1d
    refine ⟨untouched_refl _ _, ?_, ?_⟩
    · intro hfl; cases hfl
    · intro _ m he
      rw [load_target_name_err hload] at he
      cases he
  | ok N =>
    obtain ⟨hargv, hNne⟩ := load_target_name_ok hload
    rw [hload] at h
    dsimp only at h
    unfold make_new_directory at h
    dsimp only [Option.getD] at h
    rw [hargv]
    dsimp only [Option.getD]
    by_cases hex : w.fs.pexists (w.cwd.dropLast ++ [N ++ "-py"]) = true
    · rw [if_pos hex] at h
      injection h with h1
      injection h1 with h1a h1b
      injection h1b with h1c h1d
      subst h1a; subst h1c; subst h1d
      refine ⟨untouched_refl _ _, ?_, ?_⟩
      · intro hfl; cases hfl
      · intro _ m he; cases he
    · rw [if_neg hex] at h
      have hnex : w.fs.pexists (w.cwd.dropLast ++ [N ++ "-py"]) = false := by
        simpa using hex
      have hdisj := dest_disjoint hne hroot hnex
      have hdis' : ∀ q, w.cwd <+: q → ¬ (w.cwd.dropLast ++ [N ++ "-py"]) <+: q :=
        fun q hq => fun hcon => pathDisj_not_under hdisj.symm hq hcon
      unfold tickF at h
      cases hf : fl w.tick with
      | some k =>
        rw [hf] at h
        dsimp only at h
        injection h with h1
        injection h1 with h1a h1b
        injection h1b with h1c h1d
        subst h1a; subst h1c; subst h1d
        refine ⟨untouched_copyTreeUpTo hdis', ?_, ?_⟩
        · intro hfl; cases hfl
        · intro _ m he; cases he
      | none =>
        rw [hf] at h
        dsimp only at h
        have hmem : (w.cwd.dropLast ++ [N ++ "-py"]) ∈
            (w.fs.copyTree w.cwd (w.cwd.dropLast ++ [N ++ "-py"])).dirs :=
          copyTree_dst_mem hroot
        unfold chdir at h
        dsimp only at h
        rw [if_pos (by unfold FS.isDir; simp [hmem])] at h
        dsimp only at h
        cases halter : alter_new fl
            { name_target := some N, name_original := none,
              path_original := some w.cwd,
              path_target := some (w.cwd.dropLast ++ [N ++ "-py"]),
              new_created := true }
            { fs := w.fs.copyTree w.cwd (w.cwd.dropLast ++ [N ++ "-py"]),
              cwd := w.cwd.dropLast ++ [N ++ "-py"],
              stdout := w.stdout, stderr := w.stderr, tick := w.tick + 1 } with
        | error ew =>
          rw [halter] at h
          dsimp only at h
          injection h with h1
          injection h1 with h1a h1b
          injection h1b with h1c h1d
          subst h1a; subst h1c; subst h1d
          have hst := alter_new_stepok fl
            { name_target := some N, name_original := none,
              path_original := some w.cwd,
              path_target := some (w.cwd.dropLast ++ [N ++ "-py"]),
              new_created := true }
            { fs := w.fs.copyTree w.cwd (w.cwd.dropLast ++ [N ++ "-py"]),
              cwd := w.cwd.dropLast ++ [N ++ "-py"],
              stdout := w.stdout, stderr := w.stderr, tick := w.tick + 1 }
            w.cwd hdis'
          rw [halter] at hst
          refine ⟨untouched_trans (untouched_copyTree hdis') hst.1, ?_, ?_⟩
          · intro _; exact ⟨rfl, hdisj⟩
          · intro hfl; cases hfl
        | ok w3 =>
          rw [halter] at h
          dsimp only at h
          cases h

theorem tryBody_ok_spec (argv : List String) (fl : Faults) (w : World)
    (hne : w.cwd ≠ []) (hroot : w.cwd ∈ w.fs.dirs) :
    ∀ si w₁, tryBody argv fl w = .ok (si, w₁) →
      si.new_created = true ∧
      si.path_original = some w.cwd ∧
      si.path_target = some (w.cwd.dropLast ++ [(argv.get? 1).getD "" ++ "-py"]) ∧
      PathDisj w.cwd (w.cwd.dropLast ++ [(argv.get? 1).getD "" ++ "-py"]) ∧
      (w.cwd.dropLast ++ [(argv.get? 1).getD "" ++ "-py"]) ∈ w₁.fs.dirs ∧
      w₁.stdout = w.stdout ++ pathStr (w.cwd.dropLast ++ [(argv.get? 1).getD "" ++ "-py"]) ∧
      w₁.cwd = w.cwd.dropLast ++ [(argv.get? 1).getD "" ++ "-py"] ∧
      Untouched w.fs w₁.fs w.cwd := by
  intro si w₁ h
  unfold tryBody at h
  cases hload : load_target_name argv with
  | error e0 => rw [hload] at h; cases h
  | ok N =>
    obtain ⟨hargv, hNne⟩ := load_target_name_ok hload
    rw [hload] at h
    dsimp only at h
    unfold make_new_directory at h
    dsimp only [Option.getD] at h
    rw [hargv]
    dsimp only [Option.getD]
    by_cases hex : w.fs.pexists (w.cwd.dropLast ++ [N ++ "-py"]) = true
    · rw [if_pos hex] at h; cases h
    · rw [if_neg hex] at h
      have hnex : w.fs.pexists (w.cwd.dropLast ++ [N ++ "-py"]) = false := by
        simpa using hex
      have hdisj := dest_disjoint hne hroot hnex
      have hdis' : ∀ q, w.cwd <+: q → ¬ (w.cwd.dropLast ++ [N ++ "-py"]) <+: q :=
        fun q hq => fun hcon => pathDisj_not_under hdisj.symm hq hcon
      unfold tickF at h
      cases hf : fl w.tick with
      | some k => rw [hf] at h; cases h
      | none =>
        rw [hf] at h
        dsimp only at h
        have hmem : (w.cwd.dropLast ++ [N ++ "-py"]) ∈
            (w.fs.copyTree w.cwd (w.cwd.dropLast ++ [N ++ "-py"])).dirs :=
          copyTree_dst_mem hroot
        unfold chdir at h
        dsimp only [Option.getD] at h
        rw [if_pos (by unfold FS.isDir; simp [hmem])] at h
        dsimp only at h
        cases halter : alter_new fl
            { name_target := some N, name_original := none,
              path_original := some w.cwd,
              path_target := some (w.cwd.dropLast ++ [N ++ "-py"]),
              new_created := true }
            { fs := w.fs.copyTree w.cwd (w.cwd.dropLast ++ [N ++ "-py"]),
              cwd := w.cwd.dropLast ++ [N ++ "-py"],
              stdout := w.stdout, stderr := w.stderr, tick := w.tick + 1 } with
        | error ew =>
          rw [halter] at h
          dsimp only at h
          cases h
        | ok w3 =>
          rw [halter] at h
          dsimp only [Option.getD] at h
          injection h with h1
          injection h1 with h1a h1b
          subst h1a; subst h1b
          have hst := alter_new_stepok fl
            { name_target := some N, name_original := none,
              path_original := some w.cwd,
              path_target := some (w.cwd.dropLast ++ [N ++ "-py"]),
              new_created := true }
            { fs := w.fs.copyTree w.cwd (w.cwd.dropLast ++ [N ++ "-py"]),
              cwd := w.cwd.dropLast ++ [N ++ "-py"],
              stdout := w.stdout, stderr := w.stderr, tick := w.tick + 1 }
            w.cwd hdis'
          rw [halter] at hst
          have hcwd3 : w3.cwd = w.cwd.dropLast ++ [N ++ "-py"] := hst.2.1
          have hstd3 : w3.stdout = w.stdout := hst.2.2.1
          have hdest3 : (w.cwd.dropLast ++ [N ++ "-py"]) ∈ w3.fs.dirs := by
            have := hst.2.2.2 (w.cwd.dropLast ++ [N ++ "-py"]) (List.prefix_refl _)
            exact this.mpr hmem
          refine ⟨rfl, rfl, rfl, hdisj, hdest3, by rw [hstd3], hcwd3,
            untouched_trans (untouched_copyTree hdis') hst.1⟩

/-- C2 counterexample: a run that fails at the commit step (deleting
the original tree) has `new_created = true`, yet the destination tree
still exists afterwards — the `else:` clause of `main` is outside the
handler, so this failure does not trigger rollback, contradicting the
claim that every failure with `newDirectoryCreated` true leaves no
destination tree. -/
theorem c2_rollback_counterexample :
    MainRes.flag? (main ["prog", "gadgets"] commitFault miniW) = some true ∧
    ["gadgets-py"] ∈
      (MainRes.world (main ["prog", "gadgets"] commitFault miniW)).fs.dirs := by
  refine ⟨by decide, by decide⟩

/-- C2 (amended): for a failing run, if the failure arose inside the
`try` block then the original tree is untouched (byte-for-byte,
including the config file), and when `new_created` is true the whole
destination subtree has been deleted by rollback before the error is
re-raised; errors raised before the destination tree was created
(`new_created` false) propagate with no cleanup and the original tree
untouched.  If instead the `try` block succeeded and the failure arose
at the commit deletion of the original tree, no rollback runs and the
destination directory still exists. -/
theorem c2_rollback_amended (argv : List String) (fl : Faults) (w : World)
    (e : Err) (si : ScriptInfo) (w' : World)
    (hne : w.cwd ≠ []) (hroot : w.cwd ∈ w.fs.dirs)
    (hmain : main argv fl w = .error (e, si, w')) :
    (exOk (tryBody argv fl w) = false →
      Untouched w.fs w'.fs w.cwd ∧
      (si.new_created = true → ∀ tp, si.path_target = some tp →
        ∀ q, tp <+: q → q ∉ w'.fs.dirs ∧ w'.fs.fileAt q = none)) ∧
    (exOk (tryBody argv fl w) = true →
      si.new_created = true ∧
      (∀ tp, si.path_target = some tp → tp ∈ w'.fs.dirs)) := by
  unfold main at hmain
  cases htry : tryBody argv fl w with
  | error esw =>
    obtain ⟨e0, si0, wE⟩ := esw
    rw [htry] at hmain
    dsimp only at hmain
    have hspec := tryBody_err_spec argv fl w hne hroot e0 si0 wE htry
    constructor
    · intro _
      by_cases hfl : si0.new_created = true
      · rw [if_pos hfl] at hmain
        injection hmain with h1
        injection h1 with h1a h1b
        injection h1b with h1c h1d
        subst h1a; subst h1c; subst h1d
        obtain ⟨hpt, hdisj⟩ := hspec.2.1 hfl
        rw [hpt]
        simp only [Option.getD_some]
        constructor
        · refine untouched_trans hspec.1 (untouched_removeForce ?_)
          exact fun q hq => pathDisj_not_under hdisj.symm hq
        · intro _ tp hpt' q hq
          injection hpt' with he
          subst he
          exact removeForce_gone wE.fs _ q hq
      · rw [if_neg hfl] at hmain
        injection hmain with h1
        injection h1 with h1a h1b
        injection h1b with h1c h1d
        subst h1a; subst h1c; subst h1d
        refine ⟨hspec.1, ?_⟩
        intro hc
        exact absurd hc hfl
    · intro hok
      simp [exOk] at hok
  | ok sw =>
    obtain ⟨si1, w₁⟩ := sw
    rw [htry] at hmain
    dsimp only at hmain
    have hspec := tryBody_ok_spec argv fl w hne hroot si1 w₁ htry
    obtain ⟨hflag, hporig, hpt, hdisj, hdest, hstd, hcwd1, hunt⟩ := hspec
    rw [hporig] at hmain
    simp only [Option.getD_some] at hmain
    constructor
    · intro hok
      simp [exOk] at hok
    · intro _
      by_cases hdir : w₁.fs.isDir w.cwd = true
      · rw [if_pos hdir] at hmain
        unfold tickF at hmain
        cases hf : fl w₁.tick with
        | some k =>
          rw [hf] at hmain
          dsimp only at hmain
          injection hmain with h1
          injection h1 with h1a h1b
          injection h1b with h1c h1d
          subst h1c; subst h1d
          refine ⟨hflag, ?_⟩
          intro tp hpt'
          rw [hpt] at hpt'
          injection hpt' with he
          subst he
          exact hdest
        | none =>
          rw [hf] at hmain
          dsimp only at hmain
          cases hmain
      · rw [if_neg hdir] at hmain
        injection hmain with h1
        injection h1 with h1a h1b
        injection h1b with h1c h1d
        subst h1c; subst h1d
        refine ⟨hflag, ?_⟩
        intro tp hpt'
        rw [hpt] at hpt'
        injection hpt' with he
        subst he
        exact hdest

/-! ## C9 -/

/-- C9: if the whole `try` block succeeds but the commit-step deletion
of the original tree fails, the error propagates WITHOUT rollback: the
returned error carries `new_created = true`, the destination tree still
exists, and the destination path was already written to stdout before
the commit error. -/
theorem c9_commit_failure (argv : List String) (fl : Faults) (w : World)
    (si : ScriptInfo) (w₁ : World)
    (hne : w.cwd ≠ []) (hroot : w.cwd ∈ w.fs.dirs)
    (htry : tryBody argv fl w = .ok (si, w₁))
    (k : Nat) (hf : fl w₁.tick = some k) :
    main argv fl w = .error (.osError, si, { w₁ with tick := w₁.tick + 1 }) ∧
    si.new_created = true ∧
    (∀ tp, si.path_target = some tp →
      tp ∈ { w₁ with tick := w₁.tick + 1 }.fs.dirs ∧
      { w₁ with tick := w₁.tick + 1 }.stdout = w.stdout ++ pathStr tp) := by
  have hspec := tryBody_ok_spec argv fl w hne hroot si w₁ htry
  obtain ⟨hflag, hporig, hpt, hdisj, hdest, hstd, hcwd1, hunt⟩ := hspec
  have horig : w₁.fs.isDir w.cwd = true := by
    unfold FS.isDir
    have := (hunt.1 w.cwd (List.prefix_refl _)).mpr hroot
    simp [this]
  refine ⟨?_, hflag, ?_⟩
  · unfold main
    rw [htry]
    dsimp only
    rw [hporig]
    simp only [Option.getD_some]
    rw [if_pos horig]
    unfold tickF
    rw [hf]
  · intro tp hpt'
    rw [hpt] at hpt'
    injection hpt' with he
    subst he
    exact ⟨hdest, by rw [hstd]⟩

theorem renameLoop_not_noPkg (fl : Faults) (o t : String) :
    ∀ (ms : List String) (w : World),
      isNoPkgErr (renameLoop fl o t ms w) = false := by
  intro ms
  induction ms with
  | nil => exact fun w => rfl
  | cons n rest ih =>
    intro w
    rw [renameLoop]
    dsimp only
    by_cases hz : (lowerStr n == "zdevelop") = true
    · rw [if_pos hz]; exact ih w
    · rw [if_neg hz]
      by_cases hself : ((w.cwd ++ [newNameCode o n t] : Path) == w.cwd ++ [n]) = true
      · rw [if_pos hself]
        unfold tickF
        cases fl w.tick with
        | some k => rfl
        | none => exact ih _
      · rw [if_neg hself]
        by_cases hex : w.fs.pexists (w.cwd ++ [newNameCode o n t]) = true
        · rw [if_pos hex]; rfl
        · rw [if_neg hex]
          unfold tickF
          cases fl w.tick with
          | some k => rfl
          | none => exact ih _

/-- An error of the `try` block whose kind is `FileNotFoundError` with
a message other than the `chdir` marker can only have been raised by
`alter_new`, which runs after the flag was set. -/
theorem tryBody_fileNotFound_flag (argv : List String) (fl : Faults) (w : World)
    (m : String) (hm : m ≠ "chdir") :
    ∀ si w', tryBody argv fl w = .error (.fileNotFound m, si, w') →
      si.new_created = true := by
  intro si w' h
  unfold tryBody at h
  cases hload : load_target_name argv with
  | error e0 =>
    rw [hload] at h
    dsimp only at h
    injection h with h1
    injection h1 with h1a h1b
    rw [load_target_name_err hload] at h1a
    cases h1a
  | ok N =>
    rw [hload] at h
    dsimp only at h
    unfold make_new_directory at h
    dsimp only [Option.getD] at h
    by_cases hex : w.fs.pexists (w.cwd.dropLast ++ [N ++ "-py"]) = true
    · rw [if_pos hex] at h
      injection h with h1
      injection h1 with h1a h1b
      cases h1a
    · rw [if_neg hex] at h
      unfold tickF at h
      cases hf : fl w.tick with
      | some k =>
        rw [hf] at h
        dsimp only at h
        injection h with h1
        injection h1 with h1a h1b
        cases h1a
      | none =>
        rw [hf] at h
        dsimp only at h
        unfold chdir at h
        dsimp only [Option.getD] at h
        by_cases hdir : (w.fs.copyTree w.cwd (w.cwd.dropLast ++ [N ++ "-py"])).isDir
            (w.cwd.dropLast ++ [N ++ "-py"]) = true
        · rw [if_pos hdir] at h
          dsimp only at h
          cases halter : alter_new fl
              { name_target := some N, name_original := none,
                path_original := some w.cwd,
                path_target := some (w.cwd.dropLast ++ [N ++ "-py"]),
                new_created := true }
              { fs := w.fs.copyTree w.cwd (w.cwd.dropLast ++ [N ++ "-py"]),
                cwd := w.cwd.dropLast ++ [N ++ "-py"],
                stdout := w.stdout, stderr := w.stderr, tick := w.tick + 1 } with
          | error ew =>
            rw [halter] at h
            dsimp only at h
            injection h with h1
            injection h1 with h1a h1b
            injection h1b with h1c h1d
            subst h1c
            rfl
          | ok w3 =>
            rw [halter] at h
            dsimp only at h
            cases h
        · rw [if_neg hdir] at h
          dsimp only at h
          injection h with h1
          injection h1 with h1a h1b
          injection h1a with h1m
          exact absurd h1m.symm hm

/-- C4 counterexample is `c4_zdevelop_counterexample` above.  Amended
statement: `rename_packages` raises `NoPackagesFound` exactly when the
glob finds zero top-level marker directories at all — a directory named
`zdevelop` counts as found (it merely is not renamed), so it suppresses
the error; and whenever `main` does fail with `NoPackagesFound`, the
flag is set and rollback has deleted the whole destination subtree. -/
theorem c4_nopackages_amended :
    (∀ (fl : Faults) (o t : String) (w : World),
      isNoPkgErr (rename_packages fl o t w) = true ↔
        w.fs.topPkgDirs w.cwd = []) ∧
    (∀ (argv : List String) (fl : Faults) (w : World) (si : ScriptInfo) (w' : World),
      main argv fl w =
          .error (.fileNotFound "no packages found in library", si, w') →
        si.new_created = true ∧
        (∀ tp, si.path_target = some tp →
          ∀ q, tp <+: q → q ∉ w'.fs.dirs ∧ w'.fs.fileAt q = none)) := by
  constructor
  · intro fl o t w
    unfold rename_packages
    dsimp only
    by_cases hempty : (w.fs.topPkgDirs w.cwd).isEmpty = true
    · rw [if_pos hempty]
      simp only [isNoPkgErr]
      rw [List.isEmpty_iff] at hempty
      simp [hempty]
    · rw [if_neg hempty]
      rw [renameLoop_not_noPkg]
      rw [List.isEmpty_iff] at hempty
      simp [hempty]
  · intro argv fl w si w' hmain
    unfold main at hmain
    cases htry : tryBody argv fl w with
    | error esw =>
      obtain ⟨e0, si0, wE⟩ := esw
      rw [htry] at hmain
      dsimp only at hmain
      by_cases hfl : si0.new_created = true
      · rw [if_pos hfl] at hmain
        injection hmain with h1
        injection h1 with h1a h1b
        injection h1b with h1c h1d
        subst h1c; subst h1d
        refine ⟨hfl, ?_⟩
        intro tp hpt q hq
        rw [hpt]
        simp only [Option.getD_some]
        exact removeForce_gone wE.fs tp q hq
      · rw [if_neg hfl] at hmain
        injection hmain with h1
        injection h1 with h1a h1b
        injection h1b with h1c h1d
        subst h1c
        exact absurd
          (tryBody_fileNotFound_flag argv fl w "no packages found in library"
            (by decide) si0 wE (h1a ▸ htry)) hfl
    | ok sw =>
      obtain ⟨si1, w₁⟩ := sw
      rw [htry] at hmain
      dsimp only at hmain
      by_cases hdir : w₁.fs.isDir (si1.path_original.getD []) = true
      · rw [if_pos hdir] at hmain
        unfold tickF at hmain
        cases hf : fl w₁.tick with
        | some k =>
          rw [hf] at hmain
          dsimp only at hmain
          injection hmain with h1
          injection h1 with h1a h1b
          cases h1a
        | none =>
          rw [hf] at hmain
          dsimp only at hmain
          cases hmain
      · rw [if_neg hdir] at hmain
        injection hmain with h1
        injection h1 with h1a h1b
        injection h1a with h1m
        exact absurd h1m (by decide)

/-- C2 witness: on the template-missing run (an in-`try` failure with
`new_created` true) the amended theorem yields that the destination
subtree is gone afterwards. -/
theorem c2_rollback_amended_witness :
    ["gadgets-py"] ∉ c2wFinal.fs.dirs ∧ c2wFinal.fs.fileAt ["gadgets-py"] = none := by
  have h := c2_rollback_amended ["prog", "gadgets"] noFaults miniNTW
    (.fileNotFound "conf-template") siGadgets c2wFinal
    (by decide) (by decide) (by decide)
  exact (h.1 (by decide)).2 rfl ["gadgets-py"] rfl ["gadgets-py"] (List.prefix_refl _)

/-- C9 witness: the commit-fault run on the standard mini project. -/
theorem c9_commit_failure_witness :
    main ["prog", "gadgets"] commitFault miniW =
      .error (.osError, siGadgets, { c9w1 with tick := c9w1.tick + 1 }) ∧
    siGadgets.new_created = true ∧
    (["gadgets-py"] ∈ { c9w1 with tick := c9w1.tick + 1 }.fs.dirs ∧
      { c9w1 with tick := c9w1.tick + 1 }.stdout =
        miniW.stdout ++ pathStr ["gadgets-py"]) := by
  have h := c9_commit_failure ["prog", "gadgets"] commitFault miniW siGadgets c9w1
    (by decide) (by decide) (by decide) 0 (by decide)
  exact ⟨h.1, h.2.1, h.2.2 ["gadgets-py"] rfl⟩

/-- C4 witness: a run against a zero-package project fails with
`NoPackagesFound`, the flag is set, and the destination subtree is
rolled back. -/
theorem c4_nopackages_amended_witness :
    siGadgets.new_created = true ∧
    (["gadgets-py"] ∉ c4wFinal.fs.dirs ∧ c4wFinal.fs.fileAt ["gadgets-py"] = none) := by
  have h := c4_nopackages_amended.2 ["prog", "gadgets"] noFaults noPkgW
    siGadgets c4wFinal (by decide)
  exact ⟨h.1, h.2 ["gadgets-py"] rfl ["gadgets-py"] (List.prefix_refl _)⟩

theorem fileAt_writeFile_self (fs : FS) (p : Path) (d : FileData) :
    (fs.writeFile p d).fileAt p = some d := by
  unfold FS.fileAt FS.writeFile
  rw [find?_updFiles_self]
  rfl

theorem fileAt_writeFile_ne {fs : FS} {p q : Path} {d : FileData} (h : q ≠ p) :
    (fs.writeFile p d).fileAt q = fs.fileAt q := by
  unfold FS.fileAt FS.writeFile
  rw [find?_updFiles_ne h]

theorem fileAt_removeForce_keep {fs : FS} {r q : Path} (h : ¬ r <+: q) :
    (fs.removeTreeForce r).fileAt q = fs.fileAt q := by
  unfold FS.fileAt FS.removeTreeForce
  rw [find?_filter_key]
  intro e he
  subst he
  simp [isPrefixOf_false_of h]

theorem fileAt_none_iff {fs : FS} {q : Path} :
    fs.fileAt q = none ↔ ∀ e ∈ fs.files, e.1 ≠ q := by
  unfold FS.fileAt
  rw [Option.map_eq_none', List.find?_eq_none]
  constructor
  · intro h e he
    have := h e he
    simpa using this
  · intro h e he
    simpa using h e he

theorem mem_updFiles_elim {l : List (Path × FileData)} {p : Path} {d : FileData}
    {e : Path × FileData} (h : e ∈ updFiles l p d) : e = (p, d) ∨ e ∈ l := by
  induction l with
  | nil => simpa [updFiles] using h
  | cons e0 es ih =>
    unfold updFiles at h
    by_cases hb : (e0.1 == p) = true
    · rw [if_pos hb] at h
      rcases List.mem_cons.mp h with h1 | h1
      · exact Or.inl h1
      · exact Or.inr (List.mem_cons_of_mem e0 h1)
    · rw [if_neg hb] at h
      rcases List.mem_cons.mp h with h1 | h1
      · exact Or.inr (h1 ▸ List.mem_cons_self e0 es)
      · rcases ih h1 with h2 | h2
        · exact Or.inl h2
        · exact Or.inr (List.mem_cons_of_mem e0 h2)

theorem mem_dirs_copyTree_elim {fs : FS} {src dst q : Path}
    (h : q ∈ (fs.copyTree src dst).dirs) :
    q ∈ fs.dirs ∨ ∃ d ∈ fs.dirs, src <+: d ∧ q = reroot src dst d := by
  unfold FS.copyTree at h
  rcases List.mem_append.mp h with h1 | h1
  · exact Or.inl h1
  · rw [List.mem_map] at h1
    obtain ⟨d, hd, rfl⟩ := h1
    rw [List.mem_filter] at hd
    exact Or.inr ⟨d, hd.1, List.isPrefixOf_iff_prefix.mp hd.2, rfl⟩

theorem mem_files_copyTree_elim {fs : FS} {src dst : Path} {e : Path × FileData}
    (h : e ∈ (fs.copyTree src dst).files) :
    e ∈ fs.files ∨ ∃ e0 ∈ fs.files, src <+: e0.1 ∧ e = (reroot src dst e0.1, e0.2) := by
  unfold FS.copyTree at h
  rcases List.mem_append.mp h with h1 | h1
  · exact Or.inl h1
  · rw [List.mem_map] at h1
    obtain ⟨e0, he0, rfl⟩ := h1
    rw [List.mem_filter] at he0
    exact Or.inr ⟨e0, he0.1, List.isPrefixOf_iff_prefix.mp he0.2, rfl⟩

theorem removeForce_dirs_subset {fs : FS} {r q : Path}
    (h : q ∈ (fs.removeTreeForce r).dirs) : q ∈ fs.dirs :=
  (List.mem_filter.mp h).1

theorem removeForce_files_subset {fs : FS} {r : Path} {e : Path × FileData}
    (h : e ∈ (fs.removeTreeForce r).files) : e ∈ fs.files :=
  (List.mem_filter.mp h).1

theorem sibling_pref_eq {p : Path} {a b : String} (h : (p ++ [a]) <+: (p ++ [b])) :
    a = b := by
  have := List.IsPrefix.eq_of_length h (by simp)
  simpa using this

theorem egg_ne_setupcfg (old : String) : old ++ ".egg-info" ≠ "setup.cfg" := by
  intro h
  have hlen := congrArg String.length h
  rw [String.length_append] at hlen
  have h9 : (".egg-info" : String).length = 9 := by decide
  have h9' : ("setup.cfg" : String).length = 9 := by decide
  have hz : old.length = 0 := by omega
  obtain ⟨d⟩ := old
  have hd : d = [] := by
    have : d.length = 0 := hz
    exact List.length_eq_zero.mp this
  subst hd
  exact absurd h (by decide)

theorem pref_decomp {p d : Path} (h : p <+: d) : d = p ++ d.drop p.length := by
  obtain ⟨t, rfl⟩ := h
  rw [List.drop_left]

/-- Elimination for membership in the glob result. -/
theorem mem_topPkgDirs {fs : FS} {cwd : Path} {n : String}
    (h : n ∈ fs.topPkgDirs cwd) : (cwd ++ [n]) ∈ fs.dirs := by
  unfold FS.topPkgDirs at h
  rw [List.mem_filterMap] at h
  obtain ⟨d, hd, hfd⟩ := h
  by_cases hc : (d.length = cwd.length + 1 && cwd.isPrefixOf d) = true
  · rw [if_pos hc] at hfd
    rw [Bool.and_eq_true] at hc
    have hlen : d.length = cwd.length + 1 := by simpa using hc.1
    have hpre : cwd <+: d := List.isPrefixOf_iff_prefix.mp hc.2
    have hdec := pref_decomp hpre
    cases hgl : d.getLast? with
    | none => rw [hgl] at hfd; cases hfd
    | some m =>
      rw [hgl] at hfd
      dsimp only at hfd
      have hdrop : d.drop cwd.length = [m] := by
        have hl : (d.drop cwd.length).length = 1 := by
          rw [List.length_drop, hlen]
          omega
        cases hdl : d.drop cwd.length with
        | nil => rw [hdl] at hl; cases hl
        | cons x xs =>
          rw [hdl] at hl
          simp at hl
          subst hl
          -- x is the last element of d
          have hd2 : d = cwd ++ [x] := by rw [hdec, hdl]
          have : d.getLast? = some x := by
            rw [hd2]
            simp
          rw [hgl] at this
          injection this with hmx
          rw [hmx]
      by_cases hok : (!startsDot m && (fs.fileAt (d ++ ["__init__.py"])).isSome) = true
      · rw [if_pos hok] at hfd
        injection hfd with hmn
        subst hmn
        rw [pref_decomp hpre, hdrop] at hd
        exact hd
      · rw [if_neg hok] at hfd; cases hfd
  · rw [if_neg hc] at hfd; cases hfd

/-- `find?` for a key is unchanged by a map that fixes that key's
entries and never creates it (membership-aware version). -/
theorem find?_map_mem {l : List (Path × FileData)} {f : Path × FileData → Path × FileData}
    {q : Path} (h1 : ∀ e ∈ l, e.1 = q → f e = e)
    (h2 : ∀ e ∈ l, e.1 ≠ q → (f e).1 ≠ q) :
    (l.map f).find? (fun e => e.1 == q) = l.find? (fun e => e.1 == q) := by
  induction l with
  | nil => rfl
  | cons e es ih =>
    rw [List.map_cons, List.find?, List.find?]
    by_cases hq : e.1 = q
    · rw [h1 e (List.mem_cons_self e es) hq]
      simp [hq]
    · have hb : (e.1 == q) = false := by simpa using hq
      have hb' : ((f e).1 == q) = false := by
        simpa using h2 e (List.mem_cons_self e es) hq
      rw [hb, hb']
      exact ih (fun e' he' => h1 e' (List.mem_cons_of_mem e he'))
        (fun e' he' => h2 e' (List.mem_cons_of_mem e he'))

/-! ## Config get/set interaction -/
theorem setSection_find_other {l l' : List (String × List (String × String))}
    {sec sec' k v : String} (hss : sec ≠ sec')
    (h : setSection l sec' k v = some l') :
    l'.find? (fun e => e.1 == sec) = l.find? (fun e => e.1 == sec) := by
  induction l generalizing l' with
  | nil => cases h
  | cons e es ih =>
    unfold setSection at h
    by_cases he : (e.1 == sec') = true
    · rw [if_pos he] at h
      injection h with h
      subst h
      have h1 : e.1 = sec' := by simpa using he
      have hesec : (e.1 == sec) = false := by
        rw [h1]
        simp only [beq_eq_false_iff_ne, ne_eq]
        exact Ne.symm hss
      simp only [List.find?, hesec]
    · rw [if_neg he] at h
      cases hset : setSection es sec' k v with
      | none => rw [hset] at h; cases h
      | some l0 =>
        rw [hset] at h
        injection h with h
        subst h
        by_cases hb : (e.1 == sec) = true
        · simp only [List.find?, hb]
        · have hb' : (e.1 == sec) = false := by simpa using hb
          simp only [List.find?, hb']
          exact ih hset

theorem set_ok_get_self {c c' : Cfg} {s key v : String}
    (hs1 : s ≠ "") (hs2 : s ≠ "DEFAULT")
    (h : c.set s key v = .ok c') : c'.get s key = .ok v := by
  have hb1 : (s == "") = false := by simpa using hs1
  have hb2 : (s == "DEFAULT") = false := by simpa using hs2
  unfold Cfg.set at h
  simp only [hb1, hb2, Bool.or_self, Bool.false_or, if_false] at h
  have hspec := setSection_spec s (lowerStr key) v c.sections
  cases hf : c.sections.find? (fun e => e.1 == s) with
  | none => rw [hspec.1 hf] at h; cases h
  | some e0 =>
    obtain ⟨l', hl', hfind⟩ := hspec.2 e0 hf
    rw [hl'] at h
    injection h with h
    subst h
    unfold Cfg.get
    simp [hfind, lookupKV_setKV_self]

theorem set_ok_get_other {c c' : Cfg} {s s' key key' v : String}
    (hs1 : s' ≠ "") (hs2 : s' ≠ "DEFAULT") (hss : s ≠ s')
    (h : c.set s' key' v = .ok c') : c'.get s key = c.get s key := by
  have hb1 : (s' == "") = false := by simpa using hs1
  have hb2 : (s' == "DEFAULT") = false := by simpa using hs2
  unfold Cfg.set at h
  simp only [hb1, hb2, Bool.or_self, Bool.false_or, if_false] at h
  cases hset : setSection c.sections s' (lowerStr key') v with
  | none => rw [hset] at h; cases h
  | some l' =>
    rw [hset] at h
    injection h with h
    subst h
    unfold Cfg.get
    rw [setSection_find_other hss hset]

/-! ## Success-path inversion of the individual steps -/
theorem writeTextF_ok_spec {fl : Faults} {p : Path} {s : String} {w w' : World}
    (h : writeTextF fl p s w = .ok w') :
    w'.fs = w.fs.writeFile p (.text s) ∧ w'.cwd = w.cwd := by
  unfold writeTextF tickF at h
  cases hf : fl w.tick with
  | some k => rw [hf] at h; cases h
  | none =>
    rw [hf] at h
    dsimp only at h
    injection h with h
    subst h
    exact ⟨rfl, rfl⟩

theorem edit_cfg_ok_spec {fl : Faults} {si : ScriptInfo} {w : World}
    {old : String} {w' : World}
    (h : edit_cfg fl si w = .ok (old, w')) :
    ∃ c4 : Cfg,
      w'.fs = w.fs.writeFile (w.cwd ++ ["setup.cfg"]) (.config c4) ∧
      w'.cwd = w.cwd ∧
      c4.get "metadata" "name" = .ok (si.name_target.getD "") ∧
      c4.get "coverage:run" "source" = .ok (si.name_target.getD "") ∧
      c4.get "build_sphinx" "project" = .ok (si.name_target.getD "") ∧
      c4.get "coverage:html" "title" =
        .ok ("coverage report for " ++ si.name_target.getD "") := by
  unfold edit_cfg at h
  dsimp only at h
  cases hget : (load_cfg w.fs (w.cwd ++ ["setup.cfg"])).get "metadata" "name" with
  | error e0 => rw [hget] at h; cases h
  | ok old0 =>
    rw [hget] at h
    dsimp only at h
    cases hs1 : (load_cfg w.fs (w.cwd ++ ["setup.cfg"])).set "metadata" "name"
        (si.name_target.getD "") with
    | error e0 => rw [hs1] at h; cases h
    | ok c1 =>
      rw [hs1] at h
      dsimp only at h
      cases hs2 : c1.set "coverage:run" "source" (si.name_target.getD "") with
      | error e0 => rw [hs2] at h; cases h
      | ok c2 =>
        rw [hs2] at h
        dsimp only at h
        cases hs3 : c2.set "coverage:html" "title"
            ("coverage report for " ++ si.name_target.getD "") with
        | error e0 => rw [hs3] at h; cases h
        | ok c3 =>
          rw [hs3] at h
          dsimp only at h
          cases hs4 : c3.set "build_sphinx" "project" (si.name_target.getD "") with
          | error e0 => rw [hs4] at h; cases h
          | ok c4 =>
            rw [hs4] at h
            dsimp only at h
            unfold cfgSave tickF at h
            cases hf : fl w.tick with
            | some k => rw [hf] at h; cases h
            | none =>
              rw [hf] at h
              dsimp only at h
              injection h with h
              injection h with ho hw
              subst hw
              refine ⟨c4, rfl, rfl, ?_, ?_, ?_, ?_⟩
              · rw [set_ok_get_other (by decide) (by decide) (by decide) hs4,
                    set_ok_get_other (by decide) (by decide) (by decide) hs3,
                    set_ok_get_other (by decide) (by decide) (by decide) hs2]
                exact set_ok_get_self (by decide) (by decide) hs1
              · rw [set_ok_get_other (by decide) (by decide) (by decide) hs4,
                    set_ok_get_other (by decide) (by decide) (by decide) hs3]
                exact set_ok_get_self (by decide) (by decide) hs2
              · exact set_ok_get_self (by decide) (by decide) hs4
              · rw [set_ok_get_other (by decide) (by decide) (by decide) hs4]
                exact set_ok_get_self (by decide) (by decide) hs3

theorem rewrite_sphinx_ok_spec {fl : Faults} {tn : String} {w w' : World}
    (h : rewrite_sphinx_conf fl tn w = .ok w') :
    (∃ txt, w'.fs = w.fs.writeFile (w.cwd ++ ["zdocs", "source", "conf.py"]) (.text txt)) ∧
    w'.cwd = w.cwd := by
  unfold rewrite_sphinx_conf at h
  dsimp only at h
  cases hT : w.fs.fileAt (w.cwd ++ ["zdocs", "source", "conf-template"]) with
  | none => rw [hT] at h; cases h
  | some fd =>
    rw [hT] at h
    cases fd with
    | config c =>
      dsimp only at h
      obtain ⟨hfs, hcwd⟩ := writeTextF_ok_spec h
      exact ⟨⟨_, hfs⟩, hcwd⟩
    | text txt =>
      dsimp only at h
      obtain ⟨hfs, hcwd⟩ := writeTextF_ok_spec h
      exact ⟨⟨_, hfs⟩, hcwd⟩

theorem remove_egg_ok_spec {fl : Faults} {old : String} {w w' : World}
    (h : remove_egg fl old w = .ok w') :
    (w'.fs = w.fs ∨ w'.fs = w.fs.removeTreeForce (w.cwd ++ [old ++ ".egg-info"])) ∧
    w'.cwd = w.cwd := by
  unfold remove_egg at h
  dsimp only at h
  by_cases hdir : w.fs.isDir (w.cwd ++ [old ++ ".egg-info"]) = true
  · rw [if_pos hdir] at h
    unfold tickF at h
    cases hf : fl w.tick with
    | some k => rw [hf] at h; cases h
    | none =>
      rw [hf] at h
      dsimp only at h
      injection h with h
      subst h
      exact ⟨Or.inr rfl, rfl⟩
  · rw [if_neg hdir] at h
    by_cases hfile : (w.fs.fileAt (w.cwd ++ [old ++ ".egg-info"])).isSome = true
    · rw [if_pos hfile] at h; cases h
    · rw [if_neg hfile] at h
      injection h with h
      subst h
      exact ⟨Or.inl rfl, rfl⟩

/-- A file moved by a top-level directory rename can land on a
top-level path only if it sat exactly at the renamed directory's own
path. -/
theorem moveTree_image_top {cwd : Path} {n nn m : String} {k : Path}
    (hpre : (cwd ++ [n]) <+: k)
    (hcon : (cwd ++ [nn]) ++ k.drop (cwd ++ [n]).length = cwd ++ [m]) :
    k = cwd ++ [n] := by
  have hlen := congrArg List.length hcon
  simp only [List.length_append, List.length_drop, List.length_cons,
    List.length_nil] at hlen
  have hle := List.IsPrefix.length_le hpre
  simp only [List.length_append, List.length_cons, List.length_nil] at hle
  have h0 : k.length = (cwd ++ [n]).length := by
    simp only [List.length_append, List.length_cons, List.length_nil]
    omega
  exact (List.IsPrefix.eq_of_length hpre h0.symm).symm

/-- Running the rename loop does not disturb a top-level file whose
name is not among the processed directory names, provided no file sits
exactly at any of the processed directory paths. -/
theorem renameLoop_cfg_pres (fl : Faults) (o t key : String) :
    ∀ (ms : List String) (w w' : World),
      key ∉ ms →
      (∀ m ∈ ms, ∀ e ∈ w.fs.files, e.1 ≠ w.cwd ++ [m]) →
      renameLoop fl o t ms w = .ok w' →
      w'.fs.fileAt (w.cwd ++ [key]) = w.fs.fileAt (w.cwd ++ [key]) := by
  intro ms
  induction ms with
  | nil =>
    intro w w' _ _ h
    rw [renameLoop] at h
    injection h with h
    subst h
    rfl
  | cons n rest ih =>
    intro w w' hkey hfe h
    have hkeyn : key ≠ n := fun he => hkey (he ▸ List.mem_cons_self n rest)
    have hkeyr : key ∉ rest := fun hr => hkey (List.mem_cons_of_mem n hr)
    rw [renameLoop] at h
    dsimp only at h
    by_cases hz : (lowerStr n == "zdevelop") = true
    · rw [if_pos hz] at h
      exact ih w w' hkeyr (fun m hm => hfe m (List.mem_cons_of_mem n hm)) h
    · rw [if_neg hz] at h
      by_cases hself : ((w.cwd ++ [newNameCode o n t] : Path) == w.cwd ++ [n]) = true
      · rw [if_pos hself] at h
        unfold tickF at h
        cases hf : fl w.tick with
        | some k => rw [hf] at h; cases h
        | none =>
          rw [hf] at h
          dsimp only at h
          exact ih { w with tick := w.tick + 1 } w' hkeyr
            (fun m hm => hfe m (List.mem_cons_of_mem n hm)) h
      · rw [if_neg hself] at h
        by_cases hex : w.fs.pexists (w.cwd ++ [newNameCode o n t]) = true
        · rw [if_pos hex] at h; cases h
        · rw [if_neg hex] at h
          unfold tickF at h
          cases hf : fl w.tick with
          | some k => rw [hf] at h; cases h
          | none =>
            rw [hf] at h
            dsimp only at h
            have hnot_src_key : ¬ (w.cwd ++ [n]) <+: (w.cwd ++ [key]) :=
              fun hc => hkeyn (sibling_pref_eq hc).symm
            have hfind :
                ((w.fs.moveTree (w.cwd ++ [n]) (w.cwd ++ [newNameCode o n t])).files.find?
                    (fun e => e.1 == w.cwd ++ [key])) =
                  (w.fs.files.find? (fun e => e.1 == w.cwd ++ [key])) := by
              unfold FS.moveTree
              dsimp only
              apply find?_map_mem
              · intro e he heq
                have hb : (w.cwd ++ [n]).isPrefixOf e.1 = false := by
                  rw [heq]
                  exact isPrefixOf_false_of hnot_src_key
                simp [hb]
              · intro e he hne
                by_cases hp : (w.cwd ++ [n]).isPrefixOf e.1 = true
                · simp only [hp, if_true]
                  intro hcon
                  have hpre : (w.cwd ++ [n]) <+: e.1 :=
                    List.isPrefixOf_iff_prefix.mp hp
                  unfold reroot at hcon
                  have := moveTree_image_top hpre hcon
                  exact hfe n (List.mem_cons_self n rest) e he this
                · simp only [hp, Bool.false_eq_true, if_false]
                  exact hne
            have hfe' : ∀ m ∈ rest,
                ∀ e ∈ (w.fs.moveTree (w.cwd ++ [n]) (w.cwd ++ [newNameCode o n t])).files,
                  e.1 ≠ w.cwd ++ [m] := by
              intro m hm e he
              unfold FS.moveTree at he
              dsimp only at he
              rw [List.mem_map] at he
              obtain ⟨e0, he0, rfl⟩ := he
              by_cases hp : (w.cwd ++ [n]).isPrefixOf e0.1 = true
              · simp only [hp, if_true]
                intro hcon
                have hpre : (w.cwd ++ [n]) <+: e0.1 :=
                  List.isPrefixOf_iff_prefix.mp hp
                unfold reroot at hcon
                have := moveTree_image_top hpre hcon
                exact hfe n (List.mem_cons_self n rest) e0 he0 this
              · simp only [hp, Bool.false_eq_true, if_false]
                exact hfe m (List.mem_cons_of_mem n hm) e0 he0
            have hrec := ih
              { w with fs := w.fs.moveTree (w.cwd ++ [n]) (w.cwd ++ [newNameCode o n t]),
                       tick := w.tick + 1 } w' hkeyr hfe' h
            unfold FS.fileAt at hrec ⊢
            rw [hrec]
            dsimp only
            rw [hfind]

/-- Through a successful `try` block, the destination tree's
`setup.cfg` ends up holding the edited config, whose four keys read
back the target name. -/
theorem tryBody_ok_cfg (argv : List String) (fl : Faults) (w : World) (N : String)
    (hargv : argv.get? 1 = some N)
    (_hne : w.cwd ≠ []) (hroot : w.cwd ∈ w.fs.dirs)
    (hclean : ∀ q, (w.cwd.dropLast ++ [N ++ "-py"]) <+: q →
      q ∉ w.fs.dirs ∧ w.fs.fileAt q = none)
    (hcfgdir : (w.cwd ++ ["setup.cfg"]) ∉ w.fs.dirs)
    (hpd : ∀ n, (w.cwd ++ [n]) ∈ w.fs.dirs → w.fs.fileAt (w.cwd ++ [n]) = none) :
    ∀ si w₁, tryBody argv fl w = .ok (si, w₁) →
      ∃ c : Cfg,
        w₁.fs.fileAt ((w.cwd.dropLast ++ [N ++ "-py"]) ++ ["setup.cfg"]) =
          some (.config c) ∧
        c.get "metadata" "name" = .ok N ∧
        c.get "coverage:run" "source" = .ok N ∧
        c.get "build_sphinx" "project" = .ok N ∧
        c.get "coverage:html" "title" = .ok ("coverage report for " ++ N) := by
  intro si w₁ h
  unfold tryBody at h
  cases hload : load_target_name argv with
  | error e0 => rw [hload] at h; cases h
  | ok N0 =>
    obtain ⟨hargv0, hNne⟩ := load_target_name_ok hload
    rw [hargv] at hargv0
    injection hargv0 with hNN
    subst hNN
    rw [hload] at h
    dsimp only at h
    unfold make_new_directory at h
    dsimp only [Option.getD] at h
    by_cases hex : w.fs.pexists (w.cwd.dropLast ++ [N ++ "-py"]) = true
    · rw [if_pos hex] at h; cases h
    · rw [if_neg hex] at h
      unfold tickF at h
      cases hf : fl w.tick with
      | some k => rw [hf] at h; cases h
      | none =>
        rw [hf] at h
        dsimp only at h
        have hmem : (w.cwd.dropLast ++ [N ++ "-py"]) ∈
            (w.fs.copyTree w.cwd (w.cwd.dropLast ++ [N ++ "-py"])).dirs :=
          copyTree_dst_mem hroot
        unfold chdir at h
        dsimp only [Option.getD] at h
        rw [if_pos (by unfold FS.isDir; simp [hmem])] at h
        dsimp only at h
        -- names for the states
        set dest : Path := w.cwd.dropLast ++ [N ++ "-py"] with hdest
        set w2 : World :=
          { fs := w.fs.copyTree w.cwd dest, cwd := dest,
            stdout := w.stdout, stderr := w.stderr, tick := w.tick + 1 } with hw2
        -- every top-level directory of the copied tree comes from a
        -- top-level directory of the original tree
        have htop : ∀ m : String, (dest ++ [m]) ∈ w2.fs.dirs →
            (w.cwd ++ [m]) ∈ w.fs.dirs := by
          intro m hm
          rcases mem_dirs_copyTree_elim hm with h1 | ⟨d, hd, hpre, heq⟩
          · exact absurd h1 (hclean _ (List.prefix_append _ _)).1
          · unfold reroot at heq
            have hd2 := pref_decomp hpre
            have hdrop : d.drop w.cwd.length = [m] := by
              have := heq
              rw [hd2] at this
              rw [List.drop_left] at this
              exact (List.append_cancel_left this).symm
            rw [hd2, hdrop] at hd
            exact hd
        -- no file of the copied tree sits at a top-level directory
        -- path of the copied tree other than setup.cfg
        have hnofile : ∀ m : String, (w.cwd ++ [m]) ∈ w.fs.dirs →
            ∀ e ∈ w2.fs.files, e.1 ≠ dest ++ [m] := by
          intro m hmem0 e he hcon
          rcases mem_files_copyTree_elim he with h1 | ⟨e0, he0, hpre0, heq0⟩
          · exact (fileAt_none_iff.mp (hclean _ (hcon ▸ List.prefix_append _ _)).2)
              e h1 hcon
          · rw [heq0] at hcon
            dsimp only at hcon
            unfold reroot at hcon
            have hd2 := pref_decomp hpre0
            have hdrop : e0.1.drop w.cwd.length = [m] := by
              rw [hd2] at hcon
              rw [List.drop_left] at hcon
              exact List.append_cancel_left hcon
            have he01 : e0.1 = w.cwd ++ [m] := by rw [hd2, hdrop]
            exact (fileAt_none_iff.mp (hpd m hmem0)) e0 he0 he01
        cases halter : alter_new fl
            { name_target := some N, name_original := none,
              path_original := some w.cwd, path_target := some dest,
              new_created := true } w2 with
        | error ew => rw [halter] at h; cases h
        | ok w3 =>
          rw [halter] at h
          dsimp only at h
          injection h with h1
          injection h1 with h1a h1b
          subst h1a; subst h1b
          -- invert alter_new
          unfold alter_new at halter
          cases hedit : edit_cfg fl
              { name_target := some N, name_original := none,
                path_original := some w.cwd, path_target := some dest,
                new_created := true } w2 with
          | error ew => rw [hedit] at halter; cases halter
          | ok sw =>
            obtain ⟨old, wA⟩ := sw
            rw [hedit] at halter
            dsimp only at halter
            obtain ⟨c4, hAfs, hAcwd, hg1, hg2, hg3, hg4⟩ := edit_cfg_ok_spec hedit
            dsimp only [Option.getD] at hg1 hg2 hg3 hg4
            cases hsx : rewrite_sphinx_conf fl
                (({ name_target := some N, name_original := none,
                    path_original := some w.cwd, path_target := some dest,
                    new_created := true } : ScriptInfo).name_target.getD "") wA with
            | error ew => rw [hsx] at halter; cases halter
            | ok wB =>
              rw [hsx] at halter
              dsimp only at halter
              obtain ⟨⟨txt, hBfs⟩, hBcwd⟩ := rewrite_sphinx_ok_spec hsx
              cases hegg : remove_egg fl old wB with
              | error ew => rw [hegg] at halter; cases halter
              | ok wC =>
                rw [hegg] at halter
                dsimp only at halter
                obtain ⟨hCfs, hCcwd⟩ := remove_egg_ok_spec hegg
                -- working directories all equal dest
                have hw2cwd : w2.cwd = dest := rfl
                have hAcwd' : wA.cwd = dest := by rw [hAcwd]
                have hBcwd' : wB.cwd = dest := by rw [hBcwd, hAcwd']
                have hCcwd' : wC.cwd = dest := by rw [hCcwd, hBcwd']
                -- the setup.cfg key and its contents before the rename loop
                have hA_cfg : wA.fs.fileAt (dest ++ ["setup.cfg"]) =
                    some (.config c4) := by
                  rw [hAfs, hw2cwd]
                  exact fileAt_writeFile_self _ _ _
                have hcfg_ne_conf : (dest ++ ["setup.cfg"] : Path) ≠
                    wA.cwd ++ ["zdocs", "source", "conf.py"] := by
                  rw [hAcwd']
                  intro hcon
                  have := congrArg List.length hcon
                  simp at this
                have hB_cfg : wB.fs.fileAt (dest ++ ["setup.cfg"]) =
                    some (.config c4) := by
                  rw [hBfs, fileAt_writeFile_ne hcfg_ne_conf]
                  exact hA_cfg
                have hC_cfg : wC.fs.fileAt (dest ++ ["setup.cfg"]) =
                    some (.config c4) := by
                  rcases hCfs with hCfs | hCfs
                  · rw [hCfs]; exact hB_cfg
                  · rw [hCfs, hBcwd']
                    rw [fileAt_removeForce_keep]
                    · exact hB_cfg
                    · intro hc
                      exact egg_ne_setupcfg old (sibling_pref_eq hc)
                -- file keys of wC trace back
                have hCfiles : ∀ e ∈ wC.fs.files,
                    e = ((wA.cwd ++ ["zdocs", "source", "conf.py"] : Path),
                          (FileData.text txt)) ∨
                    e = ((w2.cwd ++ ["setup.cfg"] : Path), (FileData.config c4)) ∨
                    e ∈ w2.fs.files := by
                  intro e he
                  have heB : e ∈ wB.fs.files := by
                    rcases hCfs with hCfs | hCfs
                    · rw [hCfs] at he; exact he
                    · rw [hCfs] at he
                      exact removeForce_files_subset he
                  rw [hBfs] at heB
                  rcases mem_updFiles_elim heB with h1 | h1
                  · exact Or.inl h1
                  · rw [hAfs] at h1
                    rcases mem_updFiles_elim h1 with h2 | h2
                    · exact Or.inr (Or.inl h2)
                    · exact Or.inr (Or.inr h2)
                -- dirs of wC trace back to the copied dirs
                have hCdirs : ∀ q, q ∈ wC.fs.dirs → q ∈ w2.fs.dirs := by
                  intro q hq
                  have hqB : q ∈ wB.fs.dirs := by
                    rcases hCfs with hCfs | hCfs
                    · rw [hCfs] at hq; exact hq
                    · rw [hCfs] at hq
                      exact removeForce_dirs_subset hq
                  rw [hBfs, hAfs] at hqB
                  exact hqB
                -- the rename loop
                unfold rename_packages at halter
                dsimp only at halter
                by_cases hempty : (wC.fs.topPkgDirs wC.cwd).isEmpty = true
                · rw [if_pos hempty] at halter; cases halter
                · rw [if_neg hempty] at halter
                  have hms_top : ∀ m ∈ wC.fs.topPkgDirs wC.cwd,
                      (w.cwd ++ [m]) ∈ w.fs.dirs := by
                    intro m hm
                    have := mem_topPkgDirs hm
                    rw [hCcwd'] at this
                    exact htop m (hCdirs _ this)
                  have hkey : "setup.cfg" ∉ wC.fs.topPkgDirs wC.cwd := by
                    intro hmem0
                    exact hcfgdir (hms_top _ hmem0)
                  have hfe : ∀ m ∈ wC.fs.topPkgDirs wC.cwd,
                      ∀ e ∈ wC.fs.files, e.1 ≠ wC.cwd ++ [m] := by
                    intro m hm e he
                    have hm_orig := hms_top m hm
                    rw [hCcwd']
                    rcases hCfiles e he with h1 | h1 | h1
                    · rw [h1]
                      dsimp only
                      rw [hAcwd']
                      intro hcon
                      have := congrArg List.length hcon
                      simp at this
                    · rw [h1]
                      dsimp only
                      intro hcon
                      have hm_eq : "setup.cfg" = m := by
                        have : (dest ++ ["setup.cfg"] : Path) = dest ++ [m] := hcon
                        simpa using this
                      rw [← hm_eq] at hm
                      exact hkey hm
                    · exact hnofile m hm_orig e h1
                  have hloop := renameLoop_cfg_pres fl old
                    (({ name_target := some N, name_original := none,
                        path_original := some w.cwd, path_target := some dest,
                        new_created := true } : ScriptInfo).name_target.getD "")
                    "setup.cfg" (wC.fs.topPkgDirs wC.cwd) wC w3 hkey hfe halter
                  rw [hCcwd'] at hloop
                  refine ⟨c4, ?_, hg1, hg2, hg3, hg4⟩
                  dsimp only
                  rw [hloop, hC_cfg]

/-! ## C3 -/

/-- C3: after a successful run on a standard project (existing
non-root project directory; nothing pre-existing at or below the
destination; `setup.cfg` not a directory; no file squatting on a
directory path), the destination directory
`parent(original)/"<target>-py"` exists, the original directory is
gone, and the destination's `setup.cfg` reads back `metadata.name`,
`coverage:run.source`, `build_sphinx.project` as the target and
`coverage:html.title` as `"coverage report for <target>"`. -/
theorem c3_success_spec (argv : List String) (fl : Faults) (w : World) (N : String)
    (si : ScriptInfo) (w' : World)
    (hargv : argv.get? 1 = some N)
    (hne : w.cwd ≠ []) (hroot : w.cwd ∈ w.fs.dirs)
    (hclean_d : ∀ q ∈ w.fs.dirs, ¬ (w.cwd.dropLast ++ [N ++ "-py"]) <+: q)
    (hclean_f : ∀ e ∈ w.fs.files, ¬ (w.cwd.dropLast ++ [N ++ "-py"]) <+: e.1)
    (hcfgdir : (w.cwd ++ ["setup.cfg"]) ∉ w.fs.dirs)
    (hwf : ∀ e ∈ w.fs.files, e.1 ∉ w.fs.dirs)
    (hmain : main argv fl w = .ok (si, w')) :
    (w.cwd.dropLast ++ [N ++ "-py"]) ∈ w'.fs.dirs ∧
    w.cwd ∉ w'.fs.dirs ∧
    (cfgAt w'.fs ((w.cwd.dropLast ++ [N ++ "-py"]) ++ ["setup.cfg"])).map
        (fun c => (c.get "metadata" "name", c.get "coverage:run" "source",
          c.get "build_sphinx" "project", c.get "coverage:html" "title")) =
      some (.ok N, .ok N, .ok N, .ok ("coverage report for " ++ N)) := by
  have hclean : ∀ q, (w.cwd.dropLast ++ [N ++ "-py"]) <+: q →
      q ∉ w.fs.dirs ∧ w.fs.fileAt q = none := by
    intro q hq
    refine ⟨fun hmem0 => hclean_d q hmem0 hq, ?_⟩
    rw [fileAt_none_iff]
    intro e he hcon
    exact hclean_f e he (hcon ▸ hq)
  have hpd : ∀ n, (w.cwd ++ [n]) ∈ w.fs.dirs →
      w.fs.fileAt (w.cwd ++ [n]) = none := by
    intro n hmem0
    rw [fileAt_none_iff]
    intro e he hcon
    exact hwf e he (hcon ▸ hmem0)
  unfold main at hmain
  cases htry : tryBody argv fl w with
  | error esw =>
    obtain ⟨e0, si0, wE⟩ := esw
    rw [htry] at hmain
    dsimp only at hmain
    by_cases hfl : si0.new_created = true
    · rw [if_pos hfl] at hmain; cases hmain
    · rw [if_neg hfl] at hmain; cases hmain
  | ok sw =>
    obtain ⟨si1, w₁⟩ := sw
    rw [htry] at hmain
    dsimp only at hmain
    have hspec := tryBody_ok_spec argv fl w hne hroot si1 w₁ htry
    obtain ⟨hflag, hporig, hpt, hdisj, hdest, hstd, hcwd1, hunt⟩ := hspec
    rw [hargv] at hpt hdisj hdest hstd hcwd1
    simp only [Option.getD_some] at hpt hdisj hdest hstd hcwd1
    obtain ⟨c, hcfg, hg1, hg2, hg3, hg4⟩ :=
      tryBody_ok_cfg argv fl w N hargv hne hroot hclean hcfgdir hpd si1 w₁ htry
    rw [hporig] at hmain
    simp only [Option.getD_some] at hmain
    by_cases hdir : w₁.fs.isDir w.cwd = true
    · rw [if_pos hdir] at hmain
      unfold tickF at hmain
      cases hf : fl w₁.tick with
      | some k => rw [hf] at hmain; dsimp only at hmain; cases hmain
      | none =>
        rw [hf] at hmain
        dsimp only at hmain
        injection hmain with h1
        injection h1 with h1a h1b
        subst h1a; subst h1b
        refine ⟨?_, ?_, ?_⟩
        · dsimp only
          rw [mem_dirs_removeForce_keep hdisj.1]
          exact hdest
        · dsimp only
          exact (removeForce_gone w₁.fs w.cwd w.cwd (List.prefix_refl _)).1
        · dsimp only
          unfold cfgAt
          have hpres : ¬ w.cwd <+:
              ((w.cwd.dropLast ++ [N ++ "-py"]) ++ ["setup.cfg"]) :=
            pathDisj_not_under hdisj (List.prefix_append _ _)
          rw [fileAt_removeForce_keep hpres, hcfg]
          simp [hg1, hg2, hg3, hg4]
    · rw [if_neg hdir] at hmain; cases hmain

/-- C3 witness: the standard mini project renamed from `widgets` to
`gadgets` with no faults. -/
theorem c3_success_spec_witness :
    (miniW.cwd.dropLast ++ ["gadgets" ++ "-py"]) ∈ c3wFinal.fs.dirs ∧
    miniW.cwd ∉ c3wFinal.fs.dirs ∧
    (cfgAt c3wFinal.fs ((miniW.cwd.dropLast ++ ["gadgets" ++ "-py"]) ++ ["setup.cfg"])).map
        (fun c => (c.get "metadata" "name", c.get "coverage:run" "source",
          c.get "build_sphinx" "project", c.get "coverage:html" "title")) =
      some (.ok "gadgets", .ok "gadgets", .ok "gadgets",
        .ok ("coverage report for " ++ "gadgets")) :=
  c3_success_spec ["prog", "gadgets"] noFaults miniW "gadgets" siGadgets c3wFinal
    rfl (by decide) (by decide) (by decide) (by decide) (by decide) (by decide)
    (by decide)

end MakeScripts

